import Mathlib

/-!
Verification of the holoflow batched SPSC ring buffer.

A shallow embedding of `src/batched_spsc_queue/batched_spsc_queue.cc`.
The queue object becomes a record of its seven data members; every member
function becomes a function on that record.  `size_t` values are natural
numbers and every `size_t` operation of the source is written with an explicit
reduction modulo `2 ^ 64`.  Pointers are byte addresses; a `nullptr` result is
`none`.
-/

namespace holoflow

/-! ## Machine arithmetic -/

/-- Sum of two `size_t` values, as the machine computes it. -/
def wadd (a b : Nat) : Nat := (a + b) % 2 ^ 64

/-- Difference of two `size_t` values, as the machine computes it (wraps below zero). -/
def wsub (a b : Nat) : Nat := (a + (2 ^ 64 - b % 2 ^ 64)) % 2 ^ 64

/-- Product of two `size_t` values, as the machine computes it. -/
def wmul (a b : Nat) : Nat := (a * b) % 2 ^ 64

/-! ## The queue object -/

/-- Data members of `class BatchedSPSCQueue` (`batched_spsc_queue.hh`). The two
atomics are plain fields: the embedding is sequential. -/
structure BatchedSPSCQueue where
  nb_slots_ : Nat
  enqueue_batch_size_ : Nat
  dequeue_batch_size_ : Nat
  element_size_ : Nat
  buffer_ : Nat
  write_idx_ : Nat
  read_idx_ : Nat
deriving DecidableEq, Repr

namespace BatchedSPSCQueue

/-- The constructor `BatchedSPSCQueue::BatchedSPSCQueue`: stores the five
arguments and starts both indices at zero. -/
def ctor (nb_slots enqueue_batch_size dequeue_batch_size element_size buffer : Nat) :
    BatchedSPSCQueue :=
  { nb_slots_ := nb_slots
    enqueue_batch_size_ := enqueue_batch_size
    dequeue_batch_size_ := dequeue_batch_size
    element_size_ := element_size
    buffer_ := buffer
    write_idx_ := 0
    read_idx_ := 0 }

/-- The member `BatchedSPSCQueue::writer_size`. -/
def writer_size (q : BatchedSPSCQueue) : Nat :=
  let write_idx := q.write_idx_
  let read_idx := q.read_idx_
  let diff := wsub write_idx read_idx
  if write_idx < read_idx then wadd diff q.nb_slots_ else diff

/-- The member `BatchedSPSCQueue::reader_size`. -/
def reader_size (q : BatchedSPSCQueue) : Nat :=
  let write_idx := q.write_idx_
  let read_idx := q.read_idx_
  let diff := wsub write_idx read_idx
  if write_idx < read_idx then wadd diff q.nb_slots_ else diff

/-- The member `BatchedSPSCQueue::size`. -/
def size (q : BatchedSPSCQueue) : Nat :=
  let write_idx := q.write_idx_
  let read_idx := q.read_idx_
  let diff := wsub write_idx read_idx
  if write_idx < read_idx then wadd diff q.nb_slots_ else diff

/-- The member `BatchedSPSCQueue::write_ptr`: `none` is `nullptr`. -/
def write_ptr (q : BatchedSPSCQueue) : Option Nat :=
  if wsub q.nb_slots_ q.writer_size < wadd q.enqueue_batch_size_ 1 then none
  else
    let write_idx := q.write_idx_
    some (wadd q.buffer_ (wmul write_idx q.element_size_))

/-- The member `BatchedSPSCQueue::commit_write`. -/
def commit_write (q : BatchedSPSCQueue) : BatchedSPSCQueue :=
  let write_idx := q.write_idx_
  let next_write_idx := wadd write_idx q.enqueue_batch_size_
  let next_write_idx := if next_write_idx = q.nb_slots_ then 0 else next_write_idx
  { q with write_idx_ := next_write_idx }

/-- The member `BatchedSPSCQueue::read_ptr`: `none` is `nullptr`. -/
def read_ptr (q : BatchedSPSCQueue) : Option Nat :=
  if q.reader_size < q.dequeue_batch_size_ then none
  else
    let read_idx := q.read_idx_
    some (wadd q.buffer_ (wmul read_idx q.element_size_))

/-- The member `BatchedSPSCQueue::commit_read`. -/
def commit_read (q : BatchedSPSCQueue) : BatchedSPSCQueue :=
  let read_idx := q.read_idx_
  let next_read_idx := wadd read_idx q.dequeue_batch_size_
  let next_read_idx := if next_read_idx = q.nb_slots_ then 0 else next_read_idx
  { q with read_idx_ := next_read_idx }

/-- The member `BatchedSPSCQueue::reset`. -/
def reset (q : BatchedSPSCQueue) : BatchedSPSCQueue :=
  { q with write_idx_ := 0, read_idx_ := 0 }

/-- The member `BatchedSPSCQueue::fill`. -/
def fill (q : BatchedSPSCQueue) : BatchedSPSCQueue :=
  { q with write_idx_ := q.nb_slots_, read_idx_ := 0 }

end BatchedSPSCQueue

/-! ## Configurations and call sequences -/

/-- The construction contract of the queue: batch sizes and element size are at
least one and both batch sizes divide the slot count.  The last two conjuncts
are the machine side of "the buffer holds `nb_slots * element_size` bytes": the
storage region ends inside the 64-bit address space, and the `+ 1` of the
admission test in `write_ptr` does not wrap. -/
def ValidConfig (q : BatchedSPSCQueue) : Prop :=
  1 ≤ q.enqueue_batch_size_ ∧ 1 ≤ q.dequeue_batch_size_ ∧ 1 ≤ q.element_size_ ∧
  q.nb_slots_ % q.enqueue_batch_size_ = 0 ∧ q.nb_slots_ % q.dequeue_batch_size_ = 0 ∧
  q.buffer_ + q.nb_slots_ * q.element_size_ < 2 ^ 64 ∧
  q.enqueue_batch_size_ + 1 < 2 ^ 64

instance (q : BatchedSPSCQueue) : Decidable (ValidConfig q) := by
  unfold ValidConfig; infer_instance

/-- One call of the index-changing interface, used the way the header demands:
a commit is made only after its acquire returned a pointer. -/
inductive QueueOp where
  | enqueue
  | dequeue
  | reset
deriving DecidableEq, Repr

/-- Effect of one guarded call: `write_ptr` then `commit_write` if a pointer
came back, `read_ptr` then `commit_read` if a pointer came back, or `reset`. -/
def apply_op (q : BatchedSPSCQueue) : QueueOp → BatchedSPSCQueue
  | .enqueue =>
    match q.write_ptr with
    | some _ => q.commit_write
    | none => q
  | .dequeue =>
    match q.read_ptr with
    | some _ => q.commit_read
    | none => q
  | .reset => q.reset

/-- A sequence of guarded calls, left to right. -/
def run_ops (q : BatchedSPSCQueue) (ops : List QueueOp) : BatchedSPSCQueue :=
  ops.foldl apply_op q

/-- Mathematical occupancy `(write_idx - read_idx) mod nb_slots`. -/
def occupancy (q : BatchedSPSCQueue) : Int :=
  ((q.write_idx_ : Int) - (q.read_idx_ : Int)) % (q.nb_slots_ : Int)

/-! ## Storage and the byte streams -/

/-- Byte-addressed memory holding the caller's buffer. -/
abbrev Memory := Nat → UInt8

/-- The producer's writes `p[j] = data[j]` for every `j` below the length of `data`. -/
def store_bytes (m : Memory) (p : Nat) (data : List UInt8) : Memory :=
  fun a => if p ≤ a ∧ a < p + data.length then data.getD (a - p) 0 else m a

/-- The consumer's reads `p[0], ..., p[len - 1]`. -/
def load_bytes (m : Memory) (p len : Nat) : List UInt8 :=
  (List.range len).map (fun j => m (p + j))

/-- A queue together with its storage and the two byte streams observed so far. -/
structure Harness where
  queue : BatchedSPSCQueue
  memory : Memory
  produced : List UInt8
  consumed : List UInt8

/-- A producer step carrying the bytes of one batch, or a consumer step. -/
inductive Call where
  | produce (data : List UInt8)
  | consume

/-- One producer or consumer step of the acquire/commit pattern: the producer
writes a batch at the pointer from `write_ptr` and commits; the consumer reads
`dequeue_batch_size_ * element_size_` bytes at the pointer from `read_ptr` and
commits.  A step whose acquire returns `nullptr` does nothing. -/
def Harness.call (h : Harness) : Call → Harness
  | .produce data =>
    match h.queue.write_ptr with
    | none => h
    | some p =>
      { queue := h.queue.commit_write
        memory := store_bytes h.memory p data
        produced := h.produced ++ data
        consumed := h.consumed }
  | .consume =>
    match h.queue.read_ptr with
    | none => h
    | some p =>
      { queue := h.queue.commit_read
        memory := h.memory
        produced := h.produced
        consumed := h.consumed ++
          load_bytes h.memory p (h.queue.dequeue_batch_size_ * h.queue.element_size_) }

/-- A single-threaded interleaving of producer and consumer steps. -/
def Harness.run (h : Harness) (calls : List Call) : Harness :=
  calls.foldl Harness.call h

/-- Every producer step of the interleaving writes one whole batch of `len` bytes. -/
def WholeBatches (len : Nat) (calls : List Call) : Prop :=
  ∀ data, Call.produce data ∈ calls → data.length = len

/-- The state right after construction over the given memory. -/
def Harness.fresh (q : BatchedSPSCQueue) (m : Memory) : Harness :=
  { queue := q, memory := m, produced := [], consumed := [] }

/-- The queue after `k` unguarded `commit_write` calls. -/
def commit_writes (q : BatchedSPSCQueue) : Nat → BatchedSPSCQueue
  | 0 => q
  | k + 1 => (commit_writes q k).commit_write

/-- The occupancy as a natural number, for indices that are slot indices. -/
def slots_used (q : BatchedSPSCQueue) : Nat :=
  if q.write_idx_ < q.read_idx_ then q.write_idx_ + q.nb_slots_ - q.read_idx_
  else q.write_idx_ - q.read_idx_

/-- The index invariant kept by guarded commits and reset: both indices are slot
indices aligned to their batch size (or the queue has no slot and never moves). -/
def IndexInv (q : BatchedSPSCQueue) : Prop :=
  (q.nb_slots_ = 0 ∧ q.write_idx_ = 0 ∧ q.read_idx_ = 0) ∨
  (q.write_idx_ < q.nb_slots_ ∧ q.read_idx_ < q.nb_slots_ ∧
    q.enqueue_batch_size_ ∣ q.write_idx_ ∧ q.dequeue_batch_size_ ∣ q.read_idx_)


/-- Offset inside the storage of the byte `i` places after offset `start`, in a
ring of `total` bytes. -/
def ring_pos (start total i : Nat) : Nat :=
  if start + i < total then start + i else start + i - total

/-- The bytes of the occupied slots, oldest first, as they stand in memory. -/
def pending_bytes (q : BatchedSPSCQueue) (m : Memory) : List UInt8 :=
  (List.range (slots_used q * q.element_size_)).map fun i =>
    m (q.buffer_ + ring_pos (q.read_idx_ * q.element_size_)
      (q.nb_slots_ * q.element_size_) i)

/-- The invariant of the byte streams: what was produced is what was consumed
followed by the bytes still stored in the occupied slots. -/
def StreamInv (e s : Nat) (h : Harness) : Prop :=
  ValidConfig h.queue ∧ IndexInv h.queue ∧
  h.queue.enqueue_batch_size_ = e ∧ h.queue.element_size_ = s ∧
  h.produced = h.consumed ++ pending_bytes h.queue h.memory

/-! ## Counting commits, draining, and the rounds of the capacity test -/

/-- The queue after `k` unguarded `commit_read` calls. -/
def commit_reads (q : BatchedSPSCQueue) : Nat → BatchedSPSCQueue
  | 0 => q
  | k + 1 => (commit_reads q k).commit_read

/-- A queue together with the number of `commit_write` and `commit_read` calls
made on it since it was constructed or last reset. -/
structure CommitCount where
  queue : BatchedSPSCQueue
  writes : Nat
  reads : Nat

/-- One guarded call, counting the commit when it is made. -/
def count_op (c : CommitCount) : QueueOp → CommitCount
  | .enqueue =>
    match c.queue.write_ptr with
    | some _ => { queue := c.queue.commit_write, writes := c.writes + 1, reads := c.reads }
    | none => c
  | .dequeue =>
    match c.queue.read_ptr with
    | some _ => { queue := c.queue.commit_read, writes := c.writes, reads := c.reads + 1 }
    | none => c
  | .reset => { queue := c.queue.reset, writes := 0, reads := 0 }

/-- A sequence of guarded calls with its commit counts. -/
def count_ops (q : BatchedSPSCQueue) (ops : List QueueOp) : CommitCount :=
  ops.foldl count_op { queue := q, writes := 0, reads := 0 }

/-- A call sequence in which every acquire is asserted to return a pointer, as
under `ASSERT_TRUE(queue.write_ptr())` in `capacity_tests.cc`: the result is
`none` as soon as `write_ptr` or `read_ptr` returns `nullptr`. -/
def run_asserting (q : BatchedSPSCQueue) : List QueueOp → Option BatchedSPSCQueue
  | [] => some q
  | .enqueue :: ops =>
    match q.write_ptr with
    | some _ => run_asserting q.commit_write ops
    | none => none
  | .dequeue :: ops =>
    match q.read_ptr with
    | some _ => run_asserting q.commit_read ops
    | none => none
  | .reset :: ops => run_asserting q.reset ops

/-- One iteration of the shift loop of `Capacity_Is_Respected`:
`dequeue_batch_size` enqueues followed by `enqueue_batch_size` dequeues. -/
def shift_round (e d : Nat) : List QueueOp :=
  List.replicate d QueueOp.enqueue ++ List.replicate e QueueOp.dequeue

/-- The shift loop run `i` times. -/
def shift_rounds (e d : Nat) : Nat → List QueueOp
  | 0 => []
  | i + 1 => shift_round e d ++ shift_rounds e d i

/-! ## Tensor descriptor and tensor -/

/-- Data members of `class TensorDescriptor` (`descriptor.hh`). -/
structure TensorDescriptor where
  type_name_ : String
  type_size_ : Nat
  shape_ : List Nat
  strides_ : List Nat
deriving DecidableEq, Repr

namespace TensorDescriptor

/-- The constructor `TensorDescriptor::TensorDescriptor`; `none` is the process
terminated by a failed `CHECK_EQ` or `CHECK_GE`.  The product inside the loop is
a `size_t` product. -/
def ctor (type_name : String) (type_size : Nat) (shape strides : List Nat) :
    Option TensorDescriptor :=
  if shape.length ≠ strides.length then none
  else if shape.isEmpty then
    some { type_name_ := type_name, type_size_ := type_size, shape_ := shape,
           strides_ := strides }
  else
    let last := shape.length - 1
    if ¬ (strides.getD last 0 ≥ type_size) then none
    else if (List.range' 1 (shape.length - 1)).all (fun i =>
        let next := shape.length - i
        let curr := shape.length - i - 1
        decide (strides.getD curr 0 ≥ wmul (shape.getD next 0) (strides.getD next 0)))
    then
      some { type_name_ := type_name, type_size_ := type_size, shape_ := shape,
             strides_ := strides }
    else none

/-- The accessor `TensorDescriptor::type_name`. -/
def type_name (t : TensorDescriptor) : String := t.type_name_

/-- The accessor `TensorDescriptor::type_size`. -/
def type_size (t : TensorDescriptor) : Nat := t.type_size_

/-- The accessor `TensorDescriptor::shape`. -/
def shape (t : TensorDescriptor) : List Nat := t.shape_

/-- The accessor `TensorDescriptor::strides`. -/
def strides (t : TensorDescriptor) : List Nat := t.strides_

/-- The member `TensorDescriptor::operator==`. -/
def op_eq (a b : TensorDescriptor) : Bool :=
  a.type_name_ == b.type_name_ && a.type_size_ == b.type_size_ && a.shape_ == b.shape_

/-- The member `TensorDescriptor::operator!=`. -/
def op_ne (a b : TensorDescriptor) : Bool := !(op_eq a b)

/-- The member `TensorDescriptor::size_in_bytes`; the product is a `size_t` product. -/
def size_in_bytes (t : TensorDescriptor) : Nat :=
  if t.shape_.isEmpty || t.strides_.isEmpty then 0
  else wmul (t.shape_.headD 0) (t.strides_.headD 0)

end TensorDescriptor

/-- The validation conditions of the descriptor over the natural numbers: equal
lengths and, for a non-empty shape, `strides[last] ≥ type_size` and
`strides[i] ≥ shape[i+1] * strides[i+1]` for every `i < len - 1`. -/
def ValidStrides (type_size : Nat) (shape strides : List Nat) : Prop :=
  shape.length = strides.length ∧
  (shape ≠ [] →
    type_size ≤ strides.getD (shape.length - 1) 0 ∧
    ∀ i, i < shape.length - 1 →
      shape.getD (i + 1) 0 * strides.getD (i + 1) 0 ≤ strides.getD i 0)

instance (type_size : Nat) (shape strides : List Nat) :
    Decidable (ValidStrides type_size shape strides) := by
  unfold ValidStrides; infer_instance

/-- Data members of `class Tensor` (`tensor.hh`); `data_` is a byte address. -/
structure Tensor where
  desc_ : TensorDescriptor
  data_ : Nat
deriving DecidableEq, Repr

namespace Tensor

/-- The constructor `Tensor::Tensor`. -/
def ctor (desc : TensorDescriptor) (data : Nat) : Tensor :=
  { desc_ := desc, data_ := data }

/-- The accessor `Tensor::desc`. -/
def desc (t : Tensor) : TensorDescriptor := t.desc_

/-- The member template `Tensor::data<T>`, applied to `sizeof(T)`; `none` is the
process terminated by the failed `CHECK_EQ`.  The cast keeps the address. -/
def data (t : Tensor) (sizeof_T : Nat) : Option Nat :=
  if sizeof_T = t.desc_.type_size then some t.data_ else none

end Tensor

/-! ## Acquiring calls as state transformers -/

/-- An atomic load of `write_idx_`: the value is returned and nothing is stored. -/
def load_write_idx : StateM BatchedSPSCQueue Nat := fun q => (q.write_idx_, q)

/-- An atomic load of `read_idx_`: the value is returned and nothing is stored. -/
def load_read_idx : StateM BatchedSPSCQueue Nat := fun q => (q.read_idx_, q)

/-- The member `writer_size` as a call on the object, loads made explicit. -/
def writer_size_call : StateM BatchedSPSCQueue Nat := do
  let write_idx ← load_write_idx
  let read_idx ← load_read_idx
  let diff := wsub write_idx read_idx
  let q ← get
  if write_idx < read_idx then pure (wadd diff q.nb_slots_) else pure diff

/-- The member `reader_size` as a call on the object, loads made explicit. -/
def reader_size_call : StateM BatchedSPSCQueue Nat := do
  let write_idx ← load_write_idx
  let read_idx ← load_read_idx
  let diff := wsub write_idx read_idx
  let q ← get
  if write_idx < read_idx then pure (wadd diff q.nb_slots_) else pure diff

/-- The member `size` as a call on the object, loads made explicit. -/
def size_call : StateM BatchedSPSCQueue Nat := do
  let write_idx ← load_write_idx
  let read_idx ← load_read_idx
  let diff := wsub write_idx read_idx
  let q ← get
  if write_idx < read_idx then pure (wadd diff q.nb_slots_) else pure diff

/-- The member `write_ptr` as a call on the object, loads made explicit. -/
def write_ptr_call : StateM BatchedSPSCQueue (Option Nat) := do
  let used ← writer_size_call
  let q ← get
  if wsub q.nb_slots_ used < wadd q.enqueue_batch_size_ 1 then pure none
  else do
    let write_idx ← load_write_idx
    pure (some (wadd q.buffer_ (wmul write_idx q.element_size_)))

/-- The member `read_ptr` as a call on the object, loads made explicit. -/
def read_ptr_call : StateM BatchedSPSCQueue (Option Nat) := do
  let used ← reader_size_call
  let q ← get
  if used < q.dequeue_batch_size_ then pure none
  else do
    let read_idx ← load_read_idx
    pure (some (wadd q.buffer_ (wmul read_idx q.element_size_)))

/-- The calls that acquire or observe without committing. -/
inductive Acquire where
  | write_ptr
  | read_ptr
  | size
deriving DecidableEq, Repr

/-- The queue after one acquiring call. -/
def acquire (q : BatchedSPSCQueue) : Acquire → BatchedSPSCQueue
  | .write_ptr => (write_ptr_call q).2
  | .read_ptr => (read_ptr_call q).2
  | .size => (size_call q).2

/-! ## Elements of a strided tensor -/

/-- The byte offset of the element at multi-index `idx` under `strides`: the sum
of `idx[i] * strides[i]` over the dimensions. -/
def byte_offset : List Nat → List Nat → Nat
  | i :: idx, s :: strides => i * s + byte_offset idx strides
  | _, _ => 0

/-- A multi-index of the shape: one coordinate per dimension, each below the
size of its dimension. -/
def InBounds (idx shape : List Nat) : Prop :=
  idx.length = shape.length ∧ ∀ i, i < shape.length → idx.getD i 0 < shape.getD i 0

instance (idx shape : List Nat) : Decidable (InBounds idx shape) := by
  unfold InBounds; infer_instance

/-! ## Machine arithmetic without wrap-around -/

theorem wadd_of_lt {a b : Nat} (h : a + b < 2 ^ 64) : wadd a b = a + b := by
  unfold wadd; omega

theorem wmul_of_lt {a b : Nat} (h : a * b < 2 ^ 64) : wmul a b = a * b := by
  unfold wmul; exact Nat.mod_eq_of_lt h

theorem wsub_of_le {a b : Nat} (h : b ≤ a) (ha : a < 2 ^ 64) : wsub a b = a - b := by
  unfold wsub; omega

theorem wsub_wadd_of_lt {a b n : Nat} (h : a < b) (hb : b < n) (hn : n < 2 ^ 64) :
    wadd (wsub a b) n = a + n - b := by
  unfold wadd wsub; omega

/-- An aligned index below an aligned bound leaves room for one whole batch. -/
theorem aligned_add_le {d x n : Nat} (hx : d ∣ x) (hn : d ∣ n) (h : x < n) : x + d ≤ n := by
  obtain ⟨a, rfl⟩ := hx
  obtain ⟨b, rfl⟩ := hn
  have hab : a < b := Nat.lt_of_mul_lt_mul_left h
  calc d * a + d = d * (a + 1) := by ring
    _ ≤ d * b := Nat.mul_le_mul_left d hab

/-! ## The member functions on aligned slot indices -/

theorem ValidConfig.slots_lt {q : BatchedSPSCQueue} (hv : ValidConfig q) :
    q.nb_slots_ < 2 ^ 64 := by
  obtain ⟨-, -, he, -, -, hs, -⟩ := hv
  have : q.nb_slots_ ≤ q.nb_slots_ * q.element_size_ := Nat.le_mul_of_pos_right _ he
  omega

theorem ValidConfig.enq_dvd {q : BatchedSPSCQueue} (hv : ValidConfig q) :
    q.enqueue_batch_size_ ∣ q.nb_slots_ :=
  Nat.dvd_of_mod_eq_zero hv.2.2.2.1

theorem ValidConfig.deq_dvd {q : BatchedSPSCQueue} (hv : ValidConfig q) :
    q.dequeue_batch_size_ ∣ q.nb_slots_ :=
  Nat.dvd_of_mod_eq_zero hv.2.2.2.2.1

theorem slots_used_le {q : BatchedSPSCQueue} (hi : IndexInv q) :
    slots_used q ≤ q.nb_slots_ := by
  unfold slots_used
  rcases hi with ⟨hn, hw, hr⟩ | ⟨hw, hr, -, -⟩ <;> split <;> omega

theorem size_eq {q : BatchedSPSCQueue} (hv : ValidConfig q) (hi : IndexInv q) :
    q.size = slots_used q := by
  have hn := hv.slots_lt
  unfold BatchedSPSCQueue.size slots_used
  rcases hi with ⟨hn0, hw, hr⟩ | ⟨hw, hr, -, -⟩
  · simp [hw, hr, wsub]
  · by_cases h : q.write_idx_ < q.read_idx_
    · simp only [h, if_true]; exact wsub_wadd_of_lt h hr hn
    · simp only [h, if_false]; exact wsub_of_le (by omega) (by omega)

theorem writer_size_eq {q : BatchedSPSCQueue} (hv : ValidConfig q) (hi : IndexInv q) :
    q.writer_size = slots_used q := size_eq hv hi

theorem reader_size_eq {q : BatchedSPSCQueue} (hv : ValidConfig q) (hi : IndexInv q) :
    q.reader_size = slots_used q := size_eq hv hi

theorem index_mul_lt {q : BatchedSPSCQueue} (hv : ValidConfig q) {x : Nat}
    (hx : x ≤ q.nb_slots_) : q.buffer_ + x * q.element_size_ < 2 ^ 64 := by
  have h1 : x * q.element_size_ ≤ q.nb_slots_ * q.element_size_ :=
    Nat.mul_le_mul_right _ hx
  have h2 := hv.2.2.2.2.2.1
  omega

theorem slot_address {q : BatchedSPSCQueue} (hv : ValidConfig q) {x : Nat}
    (hx : x ≤ q.nb_slots_) :
    wadd q.buffer_ (wmul x q.element_size_) = q.buffer_ + x * q.element_size_ := by
  have h := index_mul_lt hv hx
  rw [wmul_of_lt (by omega), wadd_of_lt h]

theorem write_ptr_eq {q : BatchedSPSCQueue} (hv : ValidConfig q) (hi : IndexInv q) :
    q.write_ptr =
      if q.nb_slots_ < slots_used q + q.enqueue_batch_size_ + 1 then none
      else some (q.buffer_ + q.write_idx_ * q.element_size_) := by
  have hn := hv.slots_lt
  have hs := slots_used_le hi
  have he : q.enqueue_batch_size_ + 1 < 2 ^ 64 := hv.2.2.2.2.2.2
  unfold BatchedSPSCQueue.write_ptr
  rw [writer_size_eq hv hi, wsub_of_le hs hn, wadd_of_lt he]
  by_cases hc : q.nb_slots_ < slots_used q + q.enqueue_batch_size_ + 1
  · rw [if_pos hc, if_pos (by omega)]
  · rw [if_neg hc, if_neg (by omega)]
    rcases hi with ⟨hn0, -, -⟩ | ⟨hw, -, -, -⟩
    · omega
    · simp only [slot_address hv (Nat.le_of_lt hw)]

theorem read_ptr_eq {q : BatchedSPSCQueue} (hv : ValidConfig q) (hi : IndexInv q) :
    q.read_ptr =
      if slots_used q < q.dequeue_batch_size_ then none
      else some (q.buffer_ + q.read_idx_ * q.element_size_) := by
  unfold BatchedSPSCQueue.read_ptr
  rw [reader_size_eq hv hi]
  by_cases hc : slots_used q < q.dequeue_batch_size_
  · rw [if_pos hc, if_pos hc]
  · rw [if_neg hc, if_neg hc]
    rcases hi with ⟨hn0, hw, hr⟩ | ⟨-, hr, -, -⟩
    · have := hv.2.1
      simp [slots_used, hw, hr] at hc
      omega
    · simp only [slot_address hv (Nat.le_of_lt hr)]

/-- On an aligned slot index below `nb_slots_` the commit computes the successor
batch position without wrap-around. -/
theorem commit_write_idx {q : BatchedSPSCQueue} (hv : ValidConfig q)
    (hw : q.write_idx_ < q.nb_slots_) (ha : q.enqueue_batch_size_ ∣ q.write_idx_) :
    q.write_idx_ + q.enqueue_batch_size_ ≤ q.nb_slots_ ∧
    q.commit_write.write_idx_ =
      (if q.write_idx_ + q.enqueue_batch_size_ = q.nb_slots_ then 0
       else q.write_idx_ + q.enqueue_batch_size_) := by
  have hn := hv.slots_lt
  have hle := aligned_add_le ha hv.enq_dvd hw
  refine ⟨hle, ?_⟩
  have hadd : wadd q.write_idx_ q.enqueue_batch_size_ =
      q.write_idx_ + q.enqueue_batch_size_ := wadd_of_lt (by omega)
  simp only [BatchedSPSCQueue.commit_write, hadd]

theorem commit_read_idx {q : BatchedSPSCQueue} (hv : ValidConfig q)
    (hr : q.read_idx_ < q.nb_slots_) (ha : q.dequeue_batch_size_ ∣ q.read_idx_) :
    q.read_idx_ + q.dequeue_batch_size_ ≤ q.nb_slots_ ∧
    q.commit_read.read_idx_ =
      (if q.read_idx_ + q.dequeue_batch_size_ = q.nb_slots_ then 0
       else q.read_idx_ + q.dequeue_batch_size_) := by
  have hn := hv.slots_lt
  have hle := aligned_add_le ha hv.deq_dvd hr
  refine ⟨hle, ?_⟩
  have hadd : wadd q.read_idx_ q.dequeue_batch_size_ =
      q.read_idx_ + q.dequeue_batch_size_ := wadd_of_lt (by omega)
  simp only [BatchedSPSCQueue.commit_read, hadd]

/-! ## The index invariant along guarded call sequences -/

theorem write_ptr_some {q : BatchedSPSCQueue} (hv : ValidConfig q) (hi : IndexInv q)
    {p : Nat} (h : q.write_ptr = some p) :
    slots_used q + q.enqueue_batch_size_ + 1 ≤ q.nb_slots_ ∧
    p = q.buffer_ + q.write_idx_ * q.element_size_ ∧
    q.write_idx_ < q.nb_slots_ ∧ q.read_idx_ < q.nb_slots_ ∧
    q.enqueue_batch_size_ ∣ q.write_idx_ ∧ q.dequeue_batch_size_ ∣ q.read_idx_ := by
  rw [write_ptr_eq hv hi] at h
  split at h
  · exact absurd h (by simp)
  · rename_i hc
    rcases hi with ⟨hn0, -, -⟩ | ⟨hw, hr, ha, hb⟩
    · omega
    · exact ⟨by omega, (Option.some.inj h).symm, hw, hr, ha, hb⟩

theorem read_ptr_some {q : BatchedSPSCQueue} (hv : ValidConfig q) (hi : IndexInv q)
    {p : Nat} (h : q.read_ptr = some p) :
    q.dequeue_batch_size_ ≤ slots_used q ∧
    p = q.buffer_ + q.read_idx_ * q.element_size_ ∧
    q.write_idx_ < q.nb_slots_ ∧ q.read_idx_ < q.nb_slots_ ∧
    q.enqueue_batch_size_ ∣ q.write_idx_ ∧ q.dequeue_batch_size_ ∣ q.read_idx_ := by
  rw [read_ptr_eq hv hi] at h
  split at h
  · exact absurd h (by simp)
  · rename_i hc
    rcases hi with ⟨hn0, hw, hr⟩ | ⟨hw, hr, ha, hb⟩
    · have := hv.2.1
      simp [slots_used, hw, hr] at hc
      omega
    · exact ⟨by omega, (Option.some.inj h).symm, hw, hr, ha, hb⟩

theorem inv_commit_write {q : BatchedSPSCQueue} (hv : ValidConfig q) (hi : IndexInv q)
    {p : Nat} (h : q.write_ptr = some p) : IndexInv q.commit_write := by
  obtain ⟨-, -, hw, hr, ha, hb⟩ := write_ptr_some hv hi h
  obtain ⟨hle, hidx⟩ := commit_write_idx hv hw ha
  refine Or.inr ⟨?_, hr, ?_, hb⟩
  · rw [hidx]; show _ < q.nb_slots_; split <;> omega
  · rw [hidx]; show q.enqueue_batch_size_ ∣ _
    split
    · exact Nat.dvd_zero _
    · exact Nat.dvd_add ha (Nat.dvd_refl _)

theorem inv_commit_read {q : BatchedSPSCQueue} (hv : ValidConfig q) (hi : IndexInv q)
    {p : Nat} (h : q.read_ptr = some p) : IndexInv q.commit_read := by
  obtain ⟨-, -, hw, hr, ha, hb⟩ := read_ptr_some hv hi h
  obtain ⟨hle, hidx⟩ := commit_read_idx hv hr hb
  refine Or.inr ⟨hw, ?_, ha, ?_⟩
  · rw [hidx]; show _ < q.nb_slots_; split <;> omega
  · rw [hidx]; show q.dequeue_batch_size_ ∣ _
    split
    · exact Nat.dvd_zero _
    · exact Nat.dvd_add hb (Nat.dvd_refl _)

theorem inv_reset {q : BatchedSPSCQueue} : IndexInv q.reset := by
  by_cases h : q.nb_slots_ = 0
  · exact Or.inl ⟨h, rfl, rfl⟩
  · exact Or.inr ⟨Nat.pos_of_ne_zero h, Nat.pos_of_ne_zero h, Nat.dvd_zero _, Nat.dvd_zero _⟩

theorem inv_ctor (n e d s b : Nat) : IndexInv (BatchedSPSCQueue.ctor n e d s b) :=
  inv_reset (q := BatchedSPSCQueue.ctor n e d s b)

theorem valid_apply_op {q : BatchedSPSCQueue} (hv : ValidConfig q) (op : QueueOp) :
    ValidConfig (apply_op q op) := by
  cases op <;> simp only [apply_op]
  · split <;> exact hv
  · split <;> exact hv
  · exact hv

theorem inv_apply_op {q : BatchedSPSCQueue} (hv : ValidConfig q) (hi : IndexInv q)
    (op : QueueOp) : IndexInv (apply_op q op) := by
  cases op <;> simp only [apply_op]
  · split
    · rename_i p h; exact inv_commit_write hv hi h
    · exact hi
  · split
    · rename_i p h; exact inv_commit_read hv hi h
    · exact hi
  · exact inv_reset

theorem valid_inv_run_ops (ops : List QueueOp) {q : BatchedSPSCQueue}
    (hv : ValidConfig q) (hi : IndexInv q) :
    ValidConfig (run_ops q ops) ∧ IndexInv (run_ops q ops) := by
  induction ops generalizing q with
  | nil => exact ⟨hv, hi⟩
  | cons op ops ih => exact ih (valid_apply_op hv op) (inv_apply_op hv hi op)

/-- Guarded calls never change the five construction parameters. -/
theorem apply_op_config (q : BatchedSPSCQueue) (op : QueueOp) :
    (apply_op q op).nb_slots_ = q.nb_slots_ ∧
    (apply_op q op).enqueue_batch_size_ = q.enqueue_batch_size_ ∧
    (apply_op q op).dequeue_batch_size_ = q.dequeue_batch_size_ ∧
    (apply_op q op).element_size_ = q.element_size_ ∧
    (apply_op q op).buffer_ = q.buffer_ := by
  cases op <;> simp only [apply_op]
  · split <;> exact ⟨rfl, rfl, rfl, rfl, rfl⟩
  · split <;> exact ⟨rfl, rfl, rfl, rfl, rfl⟩
  · exact ⟨rfl, rfl, rfl, rfl, rfl⟩

theorem run_ops_config (ops : List QueueOp) (q : BatchedSPSCQueue) :
    (run_ops q ops).nb_slots_ = q.nb_slots_ ∧
    (run_ops q ops).enqueue_batch_size_ = q.enqueue_batch_size_ ∧
    (run_ops q ops).dequeue_batch_size_ = q.dequeue_batch_size_ ∧
    (run_ops q ops).element_size_ = q.element_size_ ∧
    (run_ops q ops).buffer_ = q.buffer_ := by
  induction ops generalizing q with
  | nil => exact ⟨rfl, rfl, rfl, rfl, rfl⟩
  | cons op ops ih =>
    obtain ⟨h1, h2, h3, h4, h5⟩ := ih (apply_op q op)
    obtain ⟨g1, g2, g3, g4, g5⟩ := apply_op_config q op
    exact ⟨h1.trans g1, h2.trans g2, h3.trans g3, h4.trans g4, h5.trans g5⟩

/-- On aligned slot indices the mathematical occupancy is `slots_used`. -/
theorem occupancy_eq {q : BatchedSPSCQueue} (hi : IndexInv q) :
    occupancy q = (slots_used q : Int) := by
  unfold occupancy slots_used
  rcases hi with ⟨hn0, hw, hr⟩ | ⟨hw, hr, -, -⟩
  · simp [hn0, hw, hr]
  · by_cases h : q.write_idx_ < q.read_idx_
    · rw [if_pos h, ← Int.add_emod_self]
      rw [Int.emod_eq_of_lt (by omega) (by omega)]
      omega
    · rw [if_neg h, Int.emod_eq_of_lt (by omega) (by omega)]
      omega

theorem slots_used_commit_write {q : BatchedSPSCQueue} (hv : ValidConfig q)
    (hi : IndexInv q) {p : Nat} (h : q.write_ptr = some p) :
    slots_used q.commit_write = slots_used q + q.enqueue_batch_size_ := by
  obtain ⟨hadm, -, hw, hr, ha, -⟩ := write_ptr_some hv hi h
  obtain ⟨hle, hidx⟩ := commit_write_idx hv hw ha
  have hrd : q.commit_write.read_idx_ = q.read_idx_ := rfl
  have hnb : q.commit_write.nb_slots_ = q.nb_slots_ := rfl
  have he := hv.1
  simp only [slots_used, hidx, hrd, hnb] at hadm ⊢
  split_ifs at hadm ⊢ <;> omega

theorem slots_used_commit_read {q : BatchedSPSCQueue} (hv : ValidConfig q)
    (hi : IndexInv q) {p : Nat} (h : q.read_ptr = some p) :
    slots_used q.commit_read + q.dequeue_batch_size_ = slots_used q := by
  obtain ⟨hadm, -, hw, hr, -, hb⟩ := read_ptr_some hv hi h
  obtain ⟨hle, hidx⟩ := commit_read_idx hv hr hb
  have hwr : q.commit_read.write_idx_ = q.write_idx_ := rfl
  have hnb : q.commit_read.nb_slots_ = q.nb_slots_ := rfl
  have hd := hv.2.1
  simp only [slots_used, hidx, hwr, hnb] at hadm ⊢
  split_ifs at hadm ⊢ <;> omega

/-- The occupancy is a multiple of every common divisor of the two batch sizes. -/
theorem dvd_slots_used {q : BatchedSPSCQueue} (hv : ValidConfig q) (hi : IndexInv q)
    {g : Nat} (he : g ∣ q.enqueue_batch_size_) (hd : g ∣ q.dequeue_batch_size_) :
    g ∣ slots_used q := by
  unfold slots_used
  rcases hi with ⟨hn0, hw, hr⟩ | ⟨hw, hr, ha, hb⟩
  · simp [hn0, hw, hr]
  · have gw : g ∣ q.write_idx_ := Nat.dvd_trans he ha
    have gr : g ∣ q.read_idx_ := Nat.dvd_trans hd hb
    have gn : g ∣ q.nb_slots_ := Nat.dvd_trans he hv.enq_dvd
    split
    · exact Nat.dvd_sub' (Nat.dvd_add gw gn) gr
    · exact Nat.dvd_sub' gw gr

theorem slots_used_lt {q : BatchedSPSCQueue} (hi : IndexInv q) (hn : 0 < q.nb_slots_) :
    slots_used q < q.nb_slots_ := by
  unfold slots_used
  rcases hi with ⟨hn0, hw, hr⟩ | ⟨hw, hr, -, -⟩ <;> split <;> omega

/-- Every state reached from a freshly constructed queue of a valid
configuration keeps the configuration and satisfies the index invariant. -/
theorem reached_state (n e d s b : Nat) (ops : List QueueOp)
    (hv : ValidConfig (BatchedSPSCQueue.ctor n e d s b)) :
    ValidConfig (run_ops (BatchedSPSCQueue.ctor n e d s b) ops) ∧
    IndexInv (run_ops (BatchedSPSCQueue.ctor n e d s b) ops) ∧
    (run_ops (BatchedSPSCQueue.ctor n e d s b) ops).nb_slots_ = n ∧
    (run_ops (BatchedSPSCQueue.ctor n e d s b) ops).enqueue_batch_size_ = e ∧
    (run_ops (BatchedSPSCQueue.ctor n e d s b) ops).dequeue_batch_size_ = d ∧
    (run_ops (BatchedSPSCQueue.ctor n e d s b) ops).element_size_ = s ∧
    (run_ops (BatchedSPSCQueue.ctor n e d s b) ops).buffer_ = b := by
  obtain ⟨h1, h2⟩ := valid_inv_run_ops ops hv (inv_ctor n e d s b)
  exact ⟨h1, h2, run_ops_config ops _⟩

/-! ## The byte stream -/

theorem map_getD_range (l : List UInt8) :
    (List.range l.length).map (fun k => l.getD k 0) = l := by
  apply List.ext_getElem (by simp)
  intro i h1 h2
  simp at h1
  simp [List.getD, h1]

theorem scale_le {a c : Nat} (h : a ≤ c) (s : Nat) : a * s ≤ c * s :=
  Nat.mul_le_mul_right s h

/-- The occupancy in bytes, relative to the read offset. -/
theorem slots_used_bytes (q : BatchedSPSCQueue) (hr : q.read_idx_ < q.nb_slots_) :
    slots_used q * q.element_size_ + q.read_idx_ * q.element_size_ =
      if q.write_idx_ < q.read_idx_ then
        q.write_idx_ * q.element_size_ + q.nb_slots_ * q.element_size_
      else q.write_idx_ * q.element_size_ := by
  rw [← Nat.add_mul]
  unfold slots_used
  split
  · rw [← Nat.add_mul]; congr 1; omega
  · congr 1; omega

/-- A committed batch is appended to the stored bytes. -/
theorem pending_after_write {q : BatchedSPSCQueue} (hv : ValidConfig q) (hi : IndexInv q)
    {p : Nat} (h : q.write_ptr = some p) (m : Memory) (data : List UInt8)
    (hlen : data.length = q.enqueue_batch_size_ * q.element_size_) :
    pending_bytes q.commit_write (store_bytes m p data) = pending_bytes q m ++ data := by
  obtain ⟨hadm, hp, hw, hr, ha, hb⟩ := write_ptr_some hv hi h
  obtain ⟨hle, -⟩ := commit_write_idx hv hw ha
  have hsu := slots_used_commit_write hv hi h
  have hS := slots_used_bytes q hr
  have hWA := scale_le hle q.element_size_
  have hAdm := scale_le hadm q.element_size_
  have hgap : q.write_idx_ < q.read_idx_ →
      q.write_idx_ * q.element_size_ + q.enqueue_batch_size_ * q.element_size_ ≤
        q.read_idx_ * q.element_size_ := by
    intro hlt
    have : q.write_idx_ + q.enqueue_batch_size_ ≤ q.read_idx_ := by
      simp only [slots_used, if_pos hlt] at hadm; omega
    have := scale_le this q.element_size_
    rwa [Nat.add_mul] at this
  simp only [Nat.add_mul, Nat.one_mul] at hWA hAdm
  unfold pending_bytes
  rw [hsu]
  show List.map (fun i => store_bytes m p data (q.buffer_ +
      ring_pos (q.read_idx_ * q.element_size_) (q.nb_slots_ * q.element_size_) i))
    (List.range ((slots_used q + q.enqueue_batch_size_) * q.element_size_)) = _
  rw [Nat.add_mul, List.range_add, List.map_append, List.map_map]
  congr 1
  · apply List.map_congr_left
    intro i hi'
    rw [List.mem_range] at hi'
    unfold store_bytes ring_pos
    rw [if_neg]
    rw [hlen, hp]
    split_ifs at hS ⊢ <;> omega
  · conv_rhs => rw [← map_getD_range data]
    rw [hlen]
    apply List.map_congr_left
    intro k hk
    rw [List.mem_range] at hk
    simp only [Function.comp, store_bytes, ring_pos]
    rw [if_pos (by rw [hlen, hp]; split_ifs at hS ⊢ <;> omega)]
    congr 1
    rw [hp]
    split_ifs at hS ⊢ <;> omega

/-- A consumed batch is the head of the stored bytes. -/
theorem pending_before_read {q : BatchedSPSCQueue} (hv : ValidConfig q) (hi : IndexInv q)
    {p : Nat} (h : q.read_ptr = some p) (m : Memory) :
    pending_bytes q m =
      load_bytes m p (q.dequeue_batch_size_ * q.element_size_) ++
        pending_bytes q.commit_read m := by
  obtain ⟨hadm, hp, hw, hr, ha, hb⟩ := read_ptr_some hv hi h
  obtain ⟨hle, hidx⟩ := commit_read_idx hv hr hb
  have hsu := slots_used_commit_read hv hi h
  have hRD := scale_le hle q.element_size_
  have hlt : slots_used q.commit_read + 1 ≤ q.nb_slots_ :=
    slots_used_lt (inv_commit_read hv hi h) (show 0 < q.nb_slots_ by omega)
  have hS := scale_le hlt q.element_size_
  simp only [Nat.add_mul, Nat.one_mul] at hRD hS
  have e1 : q.commit_read.element_size_ = q.element_size_ := rfl
  have e2 : q.commit_read.nb_slots_ = q.nb_slots_ := rfl
  have e3 : q.commit_read.buffer_ = q.buffer_ := rfl
  unfold pending_bytes load_bytes
  rw [← hsu, e1, e2, e3, Nat.add_comm (slots_used q.commit_read), Nat.add_mul,
    List.range_add, List.map_append, List.map_map]
  congr 1
  · apply List.map_congr_left
    intro j hj
    rw [List.mem_range] at hj
    unfold ring_pos
    rw [if_pos (by omega), hp, Nat.add_assoc]
  · apply List.map_congr_left
    intro j hj
    rw [List.mem_range] at hj
    simp only [Function.comp]
    congr 2
    rw [hidx]
    unfold ring_pos
    by_cases hwrap : q.read_idx_ + q.dequeue_batch_size_ = q.nb_slots_
    · rw [if_pos hwrap, Nat.zero_mul]
      have := congrArg (fun x => x * q.element_size_) hwrap
      simp only [Nat.add_mul] at this
      split_ifs <;> omega
    · rw [if_neg hwrap, Nat.add_mul]
      split_ifs <;> omega

theorem stream_inv_call {e s : Nat} {h : Harness} (hinv : StreamInv e s h) (c : Call)
    (hc : ∀ data, c = Call.produce data → data.length = e * s) :
    StreamInv e s (h.call c) := by
  obtain ⟨hv, hi, he, hs, hstream⟩ := hinv
  cases c with
  | produce data =>
    simp only [Harness.call]
    split
    · exact ⟨hv, hi, he, hs, hstream⟩
    · rename_i p hp
      refine ⟨hv, inv_commit_write hv hi hp, he, hs, ?_⟩
      show h.produced ++ data =
        h.consumed ++ pending_bytes h.queue.commit_write (store_bytes h.memory p data)
      rw [pending_after_write hv hi hp h.memory data (by rw [he, hs]; exact hc data rfl),
        hstream, List.append_assoc]
  | consume =>
    simp only [Harness.call]
    split
    · exact ⟨hv, hi, he, hs, hstream⟩
    · rename_i p hp
      refine ⟨hv, inv_commit_read hv hi hp, he, hs, ?_⟩
      show h.produced = (h.consumed ++ load_bytes h.memory p
          (h.queue.dequeue_batch_size_ * h.queue.element_size_)) ++
        pending_bytes h.queue.commit_read h.memory
      rw [hstream, pending_before_read hv hi hp h.memory, List.append_assoc]

theorem stream_inv_run {e s : Nat} (calls : List Call) {h : Harness}
    (hinv : StreamInv e s h) (hb : WholeBatches (e * s) calls) :
    StreamInv e s (h.run calls) := by
  induction calls generalizing h with
  | nil => exact hinv
  | cons c calls ih =>
    refine ih (stream_inv_call hinv c fun data hd => hb data ?_) fun data hd => hb data ?_
    · rw [hd]; exact List.mem_cons_self _ _
    · exact List.mem_cons_of_mem _ hd

/-- C1: for every valid configuration and every single-threaded interleaving of
producer steps (each writing one whole batch of arbitrary bytes) and consumer
steps, starting from a freshly constructed queue, the consumed bytes are an
initial segment of the produced bytes: for every `k` the `k`-th byte consumed is
the `k`-th byte produced. -/
theorem fifo_byte_stream (n e d s b : Nat) (m : Memory) (calls : List Call)
    (hv : ValidConfig (BatchedSPSCQueue.ctor n e d s b))
    (hb : WholeBatches (e * s) calls) :
    (∃ rest, ((Harness.fresh (BatchedSPSCQueue.ctor n e d s b) m).run calls).produced =
      ((Harness.fresh (BatchedSPSCQueue.ctor n e d s b) m).run calls).consumed ++ rest) ∧
    ∀ k, k < ((Harness.fresh (BatchedSPSCQueue.ctor n e d s b) m).run calls).consumed.length →
      ((Harness.fresh (BatchedSPSCQueue.ctor n e d s b) m).run calls).consumed[k]? =
      ((Harness.fresh (BatchedSPSCQueue.ctor n e d s b) m).run calls).produced[k]? := by
  have h0 : StreamInv e s (Harness.fresh (BatchedSPSCQueue.ctor n e d s b) m) := by
    refine ⟨hv, inv_ctor n e d s b, rfl, rfl, ?_⟩
    simp [Harness.fresh, pending_bytes, slots_used, BatchedSPSCQueue.ctor]
  obtain ⟨-, -, -, -, hstream⟩ := stream_inv_run calls h0 hb
  refine ⟨⟨_, hstream⟩, fun k hk => ?_⟩
  rw [hstream, List.getElem?_append_left hk]

theorem fifo_byte_stream_witness :
    ValidConfig (BatchedSPSCQueue.ctor 6 3 2 1 16) ∧
    WholeBatches (3 * 1)
      [Call.produce [1, 2, 3], Call.consume, Call.produce [4, 5, 6], Call.consume,
        Call.consume, Call.produce [7, 8, 9], Call.consume] ∧
    ((Harness.fresh (BatchedSPSCQueue.ctor 6 3 2 1 16) (fun _ => 0)).run
      [Call.produce [1, 2, 3], Call.consume, Call.produce [4, 5, 6], Call.consume,
        Call.consume, Call.produce [7, 8, 9], Call.consume]).consumed
      = [1, 2, 3, 4, 5, 6, 7, 8] ∧
    ((∃ rest, ((Harness.fresh (BatchedSPSCQueue.ctor 6 3 2 1 16) (fun _ => 0)).run
        [Call.produce [1, 2, 3], Call.consume, Call.produce [4, 5, 6], Call.consume,
          Call.consume, Call.produce [7, 8, 9], Call.consume]).produced =
      ((Harness.fresh (BatchedSPSCQueue.ctor 6 3 2 1 16) (fun _ => 0)).run
        [Call.produce [1, 2, 3], Call.consume, Call.produce [4, 5, 6], Call.consume,
          Call.consume, Call.produce [7, 8, 9], Call.consume]).consumed ++ rest) ∧
    ∀ k, k < ((Harness.fresh (BatchedSPSCQueue.ctor 6 3 2 1 16) (fun _ => 0)).run
        [Call.produce [1, 2, 3], Call.consume, Call.produce [4, 5, 6], Call.consume,
          Call.consume, Call.produce [7, 8, 9], Call.consume]).consumed.length →
      ((Harness.fresh (BatchedSPSCQueue.ctor 6 3 2 1 16) (fun _ => 0)).run
        [Call.produce [1, 2, 3], Call.consume, Call.produce [4, 5, 6], Call.consume,
          Call.consume, Call.produce [7, 8, 9], Call.consume]).consumed[k]? =
      ((Harness.fresh (BatchedSPSCQueue.ctor 6 3 2 1 16) (fun _ => 0)).run
        [Call.produce [1, 2, 3], Call.consume, Call.produce [4, 5, 6], Call.consume,
          Call.consume, Call.produce [7, 8, 9], Call.consume]).produced[k]?) :=
  have hb : WholeBatches (3 * 1)
      [Call.produce [1, 2, 3], Call.consume, Call.produce [4, 5, 6], Call.consume,
        Call.consume, Call.produce [7, 8, 9], Call.consume] := by
    intro data hd
    simp only [List.mem_cons, Call.produce.injEq, List.mem_singleton, reduceCtorEq,
      List.not_mem_nil, or_false, false_or] at hd
    rcases hd with rfl | rfl | rfl <;> rfl
  ⟨by decide, hb, by decide, fifo_byte_stream 6 3 2 1 16 (fun _ => 0) _ (by decide) hb⟩

/-! ## Occupancy -/

/-- C2, as stated, fails: with `nb_slots = 6`, `enq_batch = 3`, `deq_batch = 2`
the guarded sequence enqueue, dequeue, enqueue reaches occupancy 4, above
`nb_slots - enq_batch = 3`; and a queue without slots has occupancy 0, above
`nb_slots - enq_batch = -1`. -/
theorem occupancy_bound_counterexample :
    (ValidConfig (BatchedSPSCQueue.ctor 6 3 2 1 16) ∧
      occupancy (run_ops (BatchedSPSCQueue.ctor 6 3 2 1 16)
        [QueueOp.enqueue, QueueOp.dequeue, QueueOp.enqueue]) = 4 ∧
      ¬ occupancy (run_ops (BatchedSPSCQueue.ctor 6 3 2 1 16)
        [QueueOp.enqueue, QueueOp.dequeue, QueueOp.enqueue]) ≤ (6 : Int) - 3) ∧
    (ValidConfig (BatchedSPSCQueue.ctor 0 1 1 1 16) ∧
      ¬ occupancy (run_ops (BatchedSPSCQueue.ctor 0 1 1 1 16) []) ≤ (0 : Int) - 1) := by
  decide

/-- C2 (amended): for every valid configuration with at least one slot, in every
state reachable from a freshly constructed queue by guarded commits and reset,
the occupancy `(write_idx - read_idx) mod nb_slots` lies between 0 and
`nb_slots - gcd(enq_batch, deq_batch)`; the bound `nb_slots - enq_batch` holds
when `enq_batch` divides `deq_batch`. -/
theorem occupancy_bound (n e d s b : Nat) (ops : List QueueOp)
    (hv : ValidConfig (BatchedSPSCQueue.ctor n e d s b)) (hn : 1 ≤ n) :
    0 ≤ occupancy (run_ops (BatchedSPSCQueue.ctor n e d s b) ops) ∧
    occupancy (run_ops (BatchedSPSCQueue.ctor n e d s b) ops) ≤
      (n : Int) - (Nat.gcd e d : Int) ∧
    (e ∣ d → occupancy (run_ops (BatchedSPSCQueue.ctor n e d s b) ops) ≤
      (n : Int) - (e : Int)) := by
  obtain ⟨hvq, hiq, c1, c2, c3, -, -⟩ := reached_state n e d s b ops hv
  generalize run_ops (BatchedSPSCQueue.ctor n e d s b) ops = q at *
  subst c1 c2 c3
  rw [occupancy_eq hiq]
  have hlt := slots_used_lt hiq hn
  have key : ∀ g : Nat, g ∣ q.enqueue_batch_size_ → g ∣ q.dequeue_batch_size_ →
      slots_used q + g ≤ q.nb_slots_ := fun g h1 h2 =>
    aligned_add_le (dvd_slots_used hvq hiq h1 h2) (Nat.dvd_trans h1 hvq.enq_dvd) hlt
  refine ⟨by omega, ?_, fun hdvd => ?_⟩
  · have := key _ (Nat.gcd_dvd_left _ _) (Nat.gcd_dvd_right _ _)
    omega
  · have := key _ (Nat.dvd_refl _) hdvd
    omega

theorem occupancy_bound_witness :
    ValidConfig (BatchedSPSCQueue.ctor 8 2 4 1 16) ∧ 1 ≤ 8 ∧ 2 ∣ 4 ∧
    (0 ≤ occupancy (run_ops (BatchedSPSCQueue.ctor 8 2 4 1 16)
        [QueueOp.enqueue, QueueOp.enqueue, QueueOp.dequeue, QueueOp.enqueue]) ∧
      occupancy (run_ops (BatchedSPSCQueue.ctor 8 2 4 1 16)
        [QueueOp.enqueue, QueueOp.enqueue, QueueOp.dequeue, QueueOp.enqueue]) ≤
        ((8 : Nat) : Int) - (Nat.gcd 2 4 : Int) ∧
      (2 ∣ 4 → occupancy (run_ops (BatchedSPSCQueue.ctor 8 2 4 1 16)
        [QueueOp.enqueue, QueueOp.enqueue, QueueOp.dequeue, QueueOp.enqueue]) ≤
        ((8 : Nat) : Int) - ((2 : Nat) : Int))) :=
  ⟨by decide, by decide, by decide,
    occupancy_bound 8 2 4 1 16
      [QueueOp.enqueue, QueueOp.enqueue, QueueOp.dequeue, QueueOp.enqueue]
      (by decide) (by decide)⟩

/-! ## Batch contiguity and window separation -/

/-- C4: in every state reachable by guarded commits and reset from a freshly
constructed queue of a valid configuration, a pointer `p` returned by
`write_ptr` is `storage + write_idx * elem_size`, the batch region
`[p, p + enq_batch * elem_size)` lies inside
`[storage, storage + nb_slots * elem_size)`, and `write_idx + enq_batch ≤ nb_slots`. -/
theorem write_batch_contiguous (n e d s b : Nat) (ops : List QueueOp) (p : Nat)
    (hv : ValidConfig (BatchedSPSCQueue.ctor n e d s b))
    (h : (run_ops (BatchedSPSCQueue.ctor n e d s b) ops).write_ptr = some p) :
    p = b + (run_ops (BatchedSPSCQueue.ctor n e d s b) ops).write_idx_ * s ∧
    b ≤ p ∧ p + e * s ≤ b + n * s ∧
    (run_ops (BatchedSPSCQueue.ctor n e d s b) ops).write_idx_ + e ≤ n := by
  obtain ⟨hvq, hiq, c1, c2, c3, c4, c5⟩ := reached_state n e d s b ops hv
  generalize run_ops (BatchedSPSCQueue.ctor n e d s b) ops = q at *
  subst c1 c2 c3 c4 c5
  obtain ⟨-, hp, hw, -, ha, -⟩ := write_ptr_some hvq hiq h
  obtain ⟨hle, -⟩ := commit_write_idx hvq hw ha
  have hmul : (q.write_idx_ + q.enqueue_batch_size_) * q.element_size_ ≤
      q.nb_slots_ * q.element_size_ := Nat.mul_le_mul_right _ hle
  rw [Nat.add_mul] at hmul
  exact ⟨hp, by omega, by omega, hle⟩

theorem write_batch_contiguous_witness :
    ValidConfig (BatchedSPSCQueue.ctor 6 3 2 1 16) ∧
    (run_ops (BatchedSPSCQueue.ctor 6 3 2 1 16)
      [QueueOp.enqueue, QueueOp.dequeue]).write_ptr = some 19 ∧
    (19 = 16 + (run_ops (BatchedSPSCQueue.ctor 6 3 2 1 16)
        [QueueOp.enqueue, QueueOp.dequeue]).write_idx_ * 1 ∧
      16 ≤ 19 ∧ 19 + 3 * 1 ≤ 16 + 6 * 1 ∧
      (run_ops (BatchedSPSCQueue.ctor 6 3 2 1 16)
        [QueueOp.enqueue, QueueOp.dequeue]).write_idx_ + 3 ≤ 6) :=
  ⟨by decide, by decide,
    write_batch_contiguous 6 3 2 1 16 [QueueOp.enqueue, QueueOp.dequeue] 19
      (by decide) (by decide)⟩

/-- C5: in every state reachable by guarded commits and reset from a freshly
constructed queue of a valid configuration, a pointer `p` returned by `read_ptr`
is `storage + read_idx * elem_size`, the batch region
`[p, p + deq_batch * elem_size)` lies inside
`[storage, storage + nb_slots * elem_size)`, and `read_idx + deq_batch ≤ nb_slots`. -/
theorem read_batch_contiguous (n e d s b : Nat) (ops : List QueueOp) (p : Nat)
    (hv : ValidConfig (BatchedSPSCQueue.ctor n e d s b))
    (h : (run_ops (BatchedSPSCQueue.ctor n e d s b) ops).read_ptr = some p) :
    p = b + (run_ops (BatchedSPSCQueue.ctor n e d s b) ops).read_idx_ * s ∧
    b ≤ p ∧ p + d * s ≤ b + n * s ∧
    (run_ops (BatchedSPSCQueue.ctor n e d s b) ops).read_idx_ + d ≤ n := by
  obtain ⟨hvq, hiq, c1, c2, c3, c4, c5⟩ := reached_state n e d s b ops hv
  generalize run_ops (BatchedSPSCQueue.ctor n e d s b) ops = q at *
  subst c1 c2 c3 c4 c5
  obtain ⟨-, hp, -, hr, -, hb⟩ := read_ptr_some hvq hiq h
  obtain ⟨hle, -⟩ := commit_read_idx hvq hr hb
  have hmul : (q.read_idx_ + q.dequeue_batch_size_) * q.element_size_ ≤
      q.nb_slots_ * q.element_size_ := Nat.mul_le_mul_right _ hle
  rw [Nat.add_mul] at hmul
  exact ⟨hp, by omega, by omega, hle⟩

theorem read_batch_contiguous_witness :
    ValidConfig (BatchedSPSCQueue.ctor 6 3 2 1 16) ∧
    (run_ops (BatchedSPSCQueue.ctor 6 3 2 1 16)
      [QueueOp.enqueue, QueueOp.dequeue, QueueOp.enqueue]).read_ptr = some 18 ∧
    (18 = 16 + (run_ops (BatchedSPSCQueue.ctor 6 3 2 1 16)
        [QueueOp.enqueue, QueueOp.dequeue, QueueOp.enqueue]).read_idx_ * 1 ∧
      16 ≤ 18 ∧ 18 + 2 * 1 ≤ 16 + 6 * 1 ∧
      (run_ops (BatchedSPSCQueue.ctor 6 3 2 1 16)
        [QueueOp.enqueue, QueueOp.dequeue, QueueOp.enqueue]).read_idx_ + 2 ≤ 6) :=
  ⟨by decide, by decide,
    read_batch_contiguous 6 3 2 1 16
      [QueueOp.enqueue, QueueOp.dequeue, QueueOp.enqueue] 18 (by decide) (by decide)⟩

/-- C6: in every state reachable by guarded commits and reset from a freshly
constructed queue of a valid configuration, if both `write_ptr` and `read_ptr`
return a pointer then the slot ranges `[write_idx, write_idx + enq_batch)` and
`[read_idx, read_idx + deq_batch)` are disjoint. -/
theorem windows_disjoint (n e d s b : Nat) (ops : List QueueOp) (pw pr : Nat)
    (hv : ValidConfig (BatchedSPSCQueue.ctor n e d s b))
    (hw : (run_ops (BatchedSPSCQueue.ctor n e d s b) ops).write_ptr = some pw)
    (hr : (run_ops (BatchedSPSCQueue.ctor n e d s b) ops).read_ptr = some pr) :
    ∀ x : Nat,
      ¬ (((run_ops (BatchedSPSCQueue.ctor n e d s b) ops).write_idx_ ≤ x ∧
          x < (run_ops (BatchedSPSCQueue.ctor n e d s b) ops).write_idx_ + e) ∧
         ((run_ops (BatchedSPSCQueue.ctor n e d s b) ops).read_idx_ ≤ x ∧
          x < (run_ops (BatchedSPSCQueue.ctor n e d s b) ops).read_idx_ + d)) := by
  obtain ⟨hvq, hiq, c1, c2, c3, c4, c5⟩ := reached_state n e d s b ops hv
  generalize run_ops (BatchedSPSCQueue.ctor n e d s b) ops = q at *
  subst c1 c2 c3 c4 c5
  obtain ⟨h1, -, -, -, -, -⟩ := write_ptr_some hvq hiq hw
  obtain ⟨h2, -, -, -, -, -⟩ := read_ptr_some hvq hiq hr
  intro x
  simp only [slots_used] at h1 h2
  split_ifs at h1 h2 <;> omega

theorem windows_disjoint_witness :
    ValidConfig (BatchedSPSCQueue.ctor 12 3 2 1 16) ∧
    (run_ops (BatchedSPSCQueue.ctor 12 3 2 1 16)
      [QueueOp.enqueue, QueueOp.enqueue, QueueOp.dequeue]).write_ptr = some 22 ∧
    (run_ops (BatchedSPSCQueue.ctor 12 3 2 1 16)
      [QueueOp.enqueue, QueueOp.enqueue, QueueOp.dequeue]).read_ptr = some 18 ∧
    (∀ x : Nat,
      ¬ (((run_ops (BatchedSPSCQueue.ctor 12 3 2 1 16)
            [QueueOp.enqueue, QueueOp.enqueue, QueueOp.dequeue]).write_idx_ ≤ x ∧
          x < (run_ops (BatchedSPSCQueue.ctor 12 3 2 1 16)
            [QueueOp.enqueue, QueueOp.enqueue, QueueOp.dequeue]).write_idx_ + 3) ∧
         ((run_ops (BatchedSPSCQueue.ctor 12 3 2 1 16)
            [QueueOp.enqueue, QueueOp.enqueue, QueueOp.dequeue]).read_idx_ ≤ x ∧
          x < (run_ops (BatchedSPSCQueue.ctor 12 3 2 1 16)
            [QueueOp.enqueue, QueueOp.enqueue, QueueOp.dequeue]).read_idx_ + 2))) :=
  ⟨by decide, by decide, by decide,
    windows_disjoint 12 3 2 1 16 [QueueOp.enqueue, QueueOp.enqueue, QueueOp.dequeue]
      22 18 (by decide) (by decide) (by decide)⟩

/-! ## Capacity -/

/-- State after `k` producer commits from an empty queue, while the batches fit. -/
theorem commit_writes_from_empty {q : BatchedSPSCQueue} (hv : ValidConfig q)
    (hi : IndexInv q) (hz : slots_used q = 0) (k : Nat)
    (hk : k * q.enqueue_batch_size_ + q.enqueue_batch_size_ ≤ q.nb_slots_ ∨ k = 0) :
    ValidConfig (commit_writes q k) ∧ IndexInv (commit_writes q k) ∧
    slots_used (commit_writes q k) = k * q.enqueue_batch_size_ ∧
    (commit_writes q k).nb_slots_ = q.nb_slots_ ∧
    (commit_writes q k).enqueue_batch_size_ = q.enqueue_batch_size_ := by
  induction k with
  | zero => exact ⟨hv, hi, by simpa [commit_writes] using hz, rfl, rfl⟩
  | succ k ih =>
    have he := hv.1
    have hk1 : (k + 1) * q.enqueue_batch_size_ + q.enqueue_batch_size_ ≤ q.nb_slots_ := by
      rcases hk with h | h
      · exact h
      · omega
    rw [Nat.add_mul, Nat.one_mul] at hk1
    obtain ⟨hvk, hik, hsk, hnk, hek⟩ := ih (Or.inl (by omega))
    have hadm : ¬ (commit_writes q k).nb_slots_ <
        slots_used (commit_writes q k) + (commit_writes q k).enqueue_batch_size_ + 1 := by
      rw [hsk, hnk, hek]; omega
    have hptr := write_ptr_eq hvk hik
    rw [if_neg hadm] at hptr
    refine ⟨hvk, inv_commit_write hvk hik hptr, ?_, hnk, hek⟩
    show slots_used (commit_writes q k).commit_write = _
    rw [slots_used_commit_write hvk hik hptr, hsk, hek, Nat.add_mul, Nat.one_mul]

/-- C3: for every valid configuration and every reachable state with
`size() == 0`, exactly `(nb_slots - enq_batch) / enq_batch` consecutive
`write_ptr`/`commit_write` pairs succeed with no consumer call in between, and
the next `write_ptr` returns `nullptr` (the count is a natural number: it is 0
for a queue without slots). -/
theorem capacity_from_empty (n e d s b : Nat) (ops : List QueueOp)
    (hv : ValidConfig (BatchedSPSCQueue.ctor n e d s b))
    (hz : (run_ops (BatchedSPSCQueue.ctor n e d s b) ops).size = 0) :
    (∀ k, k < (n - e) / e →
      ∃ p, (commit_writes (run_ops (BatchedSPSCQueue.ctor n e d s b) ops) k).write_ptr
        = some p) ∧
    (commit_writes (run_ops (BatchedSPSCQueue.ctor n e d s b) ops)
      ((n - e) / e)).write_ptr = none := by
  obtain ⟨hvq, hiq, c1, c2, -, -, -⟩ := reached_state n e d s b ops hv
  generalize run_ops (BatchedSPSCQueue.ctor n e d s b) ops = q at *
  subst c1 c2
  rw [size_eq hvq hiq] at hz
  have he := hvq.1
  have hdiv : (q.nb_slots_ - q.enqueue_batch_size_) / q.enqueue_batch_size_ *
      q.enqueue_batch_size_ = q.nb_slots_ - q.enqueue_batch_size_ :=
    Nat.div_mul_cancel (Nat.dvd_sub' hvq.enq_dvd (Nat.dvd_refl _))
  constructor
  · intro k hk
    have hmul : (k + 1) * q.enqueue_batch_size_ ≤
        (q.nb_slots_ - q.enqueue_batch_size_) / q.enqueue_batch_size_ *
          q.enqueue_batch_size_ := Nat.mul_le_mul_right _ hk
    rw [hdiv, Nat.add_mul, Nat.one_mul] at hmul
    obtain ⟨hvk, hik, hsk, hnk, hek⟩ :=
      commit_writes_from_empty hvq hiq hz k (Or.inl (by omega))
    refine ⟨_, (write_ptr_eq hvk hik).trans (if_neg ?_)⟩
    rw [hsk, hnk, hek]; omega
  · obtain ⟨hvk, hik, hsk, hnk, hek⟩ := commit_writes_from_empty hvq hiq hz
      ((q.nb_slots_ - q.enqueue_batch_size_) / q.enqueue_batch_size_) (by
        rw [hdiv]
        by_cases h : q.enqueue_batch_size_ ≤ q.nb_slots_
        · left; omega
        · right
          exact Nat.div_eq_of_lt (by omega))
    refine (write_ptr_eq hvk hik).trans (if_pos ?_)
    rw [hsk, hnk, hek, hdiv]; omega

theorem capacity_from_empty_witness :
    ValidConfig (BatchedSPSCQueue.ctor 12 3 2 1 16) ∧
    (run_ops (BatchedSPSCQueue.ctor 12 3 2 1 16)
      [QueueOp.enqueue, QueueOp.enqueue, QueueOp.dequeue, QueueOp.dequeue,
        QueueOp.dequeue]).size = 0 ∧
    (run_ops (BatchedSPSCQueue.ctor 12 3 2 1 16)
      [QueueOp.enqueue, QueueOp.enqueue, QueueOp.dequeue, QueueOp.dequeue,
        QueueOp.dequeue]).write_idx_ = 6 ∧
    ((∀ k, k < (12 - 3) / 3 →
      ∃ p, (commit_writes (run_ops (BatchedSPSCQueue.ctor 12 3 2 1 16)
        [QueueOp.enqueue, QueueOp.enqueue, QueueOp.dequeue, QueueOp.dequeue,
          QueueOp.dequeue]) k).write_ptr = some p) ∧
    (commit_writes (run_ops (BatchedSPSCQueue.ctor 12 3 2 1 16)
      [QueueOp.enqueue, QueueOp.enqueue, QueueOp.dequeue, QueueOp.dequeue,
        QueueOp.dequeue]) ((12 - 3) / 3)).write_ptr = none) :=
  ⟨by decide, by decide, by decide,
    capacity_from_empty 12 3 2 1 16
      [QueueOp.enqueue, QueueOp.enqueue, QueueOp.dequeue, QueueOp.dequeue,
        QueueOp.dequeue] (by decide) (by decide)⟩

/-! ## Admission -/

/-- C8: in every state reachable by guarded commits and reset from a freshly
constructed queue of a valid configuration, `write_ptr` returns `nullptr`
exactly when `nb_slots - occ < enq_batch + 1`, with
`occ = (write_idx - read_idx) mod nb_slots`, and otherwise returns
`storage + write_idx * elem_size`. -/
theorem write_ptr_admission (n e d s b : Nat) (ops : List QueueOp)
    (hv : ValidConfig (BatchedSPSCQueue.ctor n e d s b)) :
    (run_ops (BatchedSPSCQueue.ctor n e d s b) ops).write_ptr =
      if (n : Int) - occupancy (run_ops (BatchedSPSCQueue.ctor n e d s b) ops) <
          (e : Int) + 1 then none
      else some (b + (run_ops (BatchedSPSCQueue.ctor n e d s b) ops).write_idx_ * s) := by
  obtain ⟨hvq, hiq, c1, c2, c3, c4, c5⟩ := reached_state n e d s b ops hv
  generalize run_ops (BatchedSPSCQueue.ctor n e d s b) ops = q at *
  subst c1 c2 c3 c4 c5
  rw [write_ptr_eq hvq hiq, occupancy_eq hiq]
  have hs := slots_used_le hiq
  by_cases hc : q.nb_slots_ < slots_used q + q.enqueue_batch_size_ + 1
  · rw [if_pos hc, if_pos (by omega)]
  · rw [if_neg hc, if_neg (by omega)]

theorem write_ptr_admission_witness :
    ValidConfig (BatchedSPSCQueue.ctor 6 3 2 1 16) ∧
    (run_ops (BatchedSPSCQueue.ctor 6 3 2 1 16)
        [QueueOp.enqueue, QueueOp.dequeue]).write_ptr =
      if ((6 : Nat) : Int) - occupancy (run_ops (BatchedSPSCQueue.ctor 6 3 2 1 16)
          [QueueOp.enqueue, QueueOp.dequeue]) < ((3 : Nat) : Int) + 1 then none
      else some (16 + (run_ops (BatchedSPSCQueue.ctor 6 3 2 1 16)
          [QueueOp.enqueue, QueueOp.dequeue]).write_idx_ * 1) :=
  ⟨by decide,
    write_ptr_admission 6 3 2 1 16 [QueueOp.enqueue, QueueOp.dequeue] (by decide)⟩

/-- C9: in every state reachable by guarded commits and reset from a freshly
constructed queue of a valid configuration, `read_ptr` returns `nullptr` exactly
when `occ < deq_batch`, with `occ = (write_idx - read_idx) mod nb_slots`, and
otherwise returns `storage + read_idx * elem_size`. -/
theorem read_ptr_admission (n e d s b : Nat) (ops : List QueueOp)
    (hv : ValidConfig (BatchedSPSCQueue.ctor n e d s b)) :
    (run_ops (BatchedSPSCQueue.ctor n e d s b) ops).read_ptr =
      if occupancy (run_ops (BatchedSPSCQueue.ctor n e d s b) ops) < (d : Int) then none
      else some (b + (run_ops (BatchedSPSCQueue.ctor n e d s b) ops).read_idx_ * s) := by
  obtain ⟨hvq, hiq, c1, c2, c3, c4, c5⟩ := reached_state n e d s b ops hv
  generalize run_ops (BatchedSPSCQueue.ctor n e d s b) ops = q at *
  subst c1 c2 c3 c4 c5
  rw [read_ptr_eq hvq hiq, occupancy_eq hiq]
  by_cases hc : slots_used q < q.dequeue_batch_size_
  · rw [if_pos hc, if_pos (by omega)]
  · rw [if_neg hc, if_neg (by omega)]

theorem read_ptr_admission_witness :
    ValidConfig (BatchedSPSCQueue.ctor 6 3 2 1 16) ∧
    (run_ops (BatchedSPSCQueue.ctor 6 3 2 1 16)
        [QueueOp.enqueue, QueueOp.dequeue, QueueOp.enqueue]).read_ptr =
      if occupancy (run_ops (BatchedSPSCQueue.ctor 6 3 2 1 16)
          [QueueOp.enqueue, QueueOp.dequeue, QueueOp.enqueue]) < ((2 : Nat) : Int)
      then none
      else some (16 + (run_ops (BatchedSPSCQueue.ctor 6 3 2 1 16)
          [QueueOp.enqueue, QueueOp.dequeue, QueueOp.enqueue]).read_idx_ * 1) :=
  ⟨by decide,
    read_ptr_admission 6 3 2 1 16 [QueueOp.enqueue, QueueOp.dequeue, QueueOp.enqueue]
      (by decide)⟩

/-! ## Index range -/

/-- C10: for every valid configuration (a queue with at least one slot), in
every state reachable from a freshly constructed queue by guarded
`commit_write`, guarded `commit_read` and `reset`, `0 ≤ write_idx < nb_slots`
and `0 ≤ read_idx < nb_slots`. -/
theorem index_range (n e d s b : Nat) (ops : List QueueOp)
    (hv : ValidConfig (BatchedSPSCQueue.ctor n e d s b)) (hn : 1 ≤ n) :
    (0 ≤ (run_ops (BatchedSPSCQueue.ctor n e d s b) ops).write_idx_ ∧
      (run_ops (BatchedSPSCQueue.ctor n e d s b) ops).write_idx_ < n) ∧
    (0 ≤ (run_ops (BatchedSPSCQueue.ctor n e d s b) ops).read_idx_ ∧
      (run_ops (BatchedSPSCQueue.ctor n e d s b) ops).read_idx_ < n) := by
  obtain ⟨-, hiq, c1, -, -, -, -⟩ := reached_state n e d s b ops hv
  generalize run_ops (BatchedSPSCQueue.ctor n e d s b) ops = q at *
  subst c1
  rcases hiq with ⟨hn0, -, -⟩ | ⟨hw, hr, -, -⟩
  · omega
  · exact ⟨⟨Nat.zero_le _, hw⟩, ⟨Nat.zero_le _, hr⟩⟩

theorem index_range_witness :
    ValidConfig (BatchedSPSCQueue.ctor 6 3 2 1 16) ∧ 1 ≤ 6 ∧
    ((0 ≤ (run_ops (BatchedSPSCQueue.ctor 6 3 2 1 16)
        [QueueOp.enqueue, QueueOp.dequeue, QueueOp.enqueue]).write_idx_ ∧
      (run_ops (BatchedSPSCQueue.ctor 6 3 2 1 16)
        [QueueOp.enqueue, QueueOp.dequeue, QueueOp.enqueue]).write_idx_ < 6) ∧
    (0 ≤ (run_ops (BatchedSPSCQueue.ctor 6 3 2 1 16)
        [QueueOp.enqueue, QueueOp.dequeue, QueueOp.enqueue]).read_idx_ ∧
      (run_ops (BatchedSPSCQueue.ctor 6 3 2 1 16)
        [QueueOp.enqueue, QueueOp.dequeue, QueueOp.enqueue]).read_idx_ < 6)) :=
  ⟨by decide, by decide,
    index_range 6 3 2 1 16 [QueueOp.enqueue, QueueOp.dequeue, QueueOp.enqueue]
      (by decide) (by decide)⟩

/-! ## Index alignment -/

/-- C11: for every valid configuration, in every state reachable by guarded
commits and reset, `write_idx` is a multiple of `enq_batch` and `read_idx` is a
multiple of `deq_batch`; hence both are multiples of `gcd(enq_batch, deq_batch)`. -/
theorem index_alignment (n e d s b : Nat) (ops : List QueueOp)
    (hv : ValidConfig (BatchedSPSCQueue.ctor n e d s b)) :
    e ∣ (run_ops (BatchedSPSCQueue.ctor n e d s b) ops).write_idx_ ∧
    d ∣ (run_ops (BatchedSPSCQueue.ctor n e d s b) ops).read_idx_ ∧
    Nat.gcd e d ∣ (run_ops (BatchedSPSCQueue.ctor n e d s b) ops).write_idx_ ∧
    Nat.gcd e d ∣ (run_ops (BatchedSPSCQueue.ctor n e d s b) ops).read_idx_ := by
  obtain ⟨-, hiq, -, c2, c3, -, -⟩ := reached_state n e d s b ops hv
  generalize run_ops (BatchedSPSCQueue.ctor n e d s b) ops = q at *
  subst c2 c3
  have key : q.enqueue_batch_size_ ∣ q.write_idx_ ∧ q.dequeue_batch_size_ ∣ q.read_idx_ := by
    rcases hiq with ⟨-, hw, hr⟩ | ⟨-, -, ha, hb⟩
    · rw [hw, hr]; exact ⟨Nat.dvd_zero _, Nat.dvd_zero _⟩
    · exact ⟨ha, hb⟩
  exact ⟨key.1, key.2, Nat.dvd_trans (Nat.gcd_dvd_left _ _) key.1,
    Nat.dvd_trans (Nat.gcd_dvd_right _ _) key.2⟩

theorem index_alignment_witness :
    ValidConfig (BatchedSPSCQueue.ctor 12 4 6 1 16) ∧
    (run_ops (BatchedSPSCQueue.ctor 12 4 6 1 16)
      [QueueOp.enqueue, QueueOp.enqueue, QueueOp.dequeue]).write_idx_ = 8 ∧
    (run_ops (BatchedSPSCQueue.ctor 12 4 6 1 16)
      [QueueOp.enqueue, QueueOp.enqueue, QueueOp.dequeue]).read_idx_ = 6 ∧
    (4 ∣ (run_ops (BatchedSPSCQueue.ctor 12 4 6 1 16)
        [QueueOp.enqueue, QueueOp.enqueue, QueueOp.dequeue]).write_idx_ ∧
      6 ∣ (run_ops (BatchedSPSCQueue.ctor 12 4 6 1 16)
        [QueueOp.enqueue, QueueOp.enqueue, QueueOp.dequeue]).read_idx_ ∧
      Nat.gcd 4 6 ∣ (run_ops (BatchedSPSCQueue.ctor 12 4 6 1 16)
        [QueueOp.enqueue, QueueOp.enqueue, QueueOp.dequeue]).write_idx_ ∧
      Nat.gcd 4 6 ∣ (run_ops (BatchedSPSCQueue.ctor 12 4 6 1 16)
        [QueueOp.enqueue, QueueOp.enqueue, QueueOp.dequeue]).read_idx_) :=
  ⟨by decide, by decide, by decide,
    index_alignment 12 4 6 1 16 [QueueOp.enqueue, QueueOp.enqueue, QueueOp.dequeue]
      (by decide)⟩

/-! ## size() and the commit counts -/

theorem count_op_queue (c : CommitCount) (op : QueueOp) :
    (count_op c op).queue = apply_op c.queue op := by
  cases op <;> simp only [count_op, apply_op]
  · split <;> rfl
  · split <;> rfl

/-- The invariant of the counted run: the occupancy is what was committed by the
producer minus what was committed by the consumer. -/
theorem count_op_inv {c : CommitCount} (hv : ValidConfig c.queue) (hi : IndexInv c.queue)
    (hc : slots_used c.queue + c.queue.dequeue_batch_size_ * c.reads =
      c.queue.enqueue_batch_size_ * c.writes) (op : QueueOp) :
    ValidConfig (count_op c op).queue ∧ IndexInv (count_op c op).queue ∧
    slots_used (count_op c op).queue +
        (count_op c op).queue.dequeue_batch_size_ * (count_op c op).reads =
      (count_op c op).queue.enqueue_batch_size_ * (count_op c op).writes := by
  cases op <;> simp only [count_op]
  · split
    · rename_i p hp
      refine ⟨hv, inv_commit_write hv hi hp, ?_⟩
      show slots_used c.queue.commit_write + c.queue.dequeue_batch_size_ * c.reads =
        c.queue.enqueue_batch_size_ * (c.writes + 1)
      rw [slots_used_commit_write hv hi hp, Nat.mul_add, Nat.mul_one]
      omega
    · exact ⟨hv, hi, hc⟩
  · split
    · rename_i p hp
      refine ⟨hv, inv_commit_read hv hi hp, ?_⟩
      show slots_used c.queue.commit_read + c.queue.dequeue_batch_size_ * (c.reads + 1) =
        c.queue.enqueue_batch_size_ * c.writes
      have := slots_used_commit_read hv hi hp
      rw [Nat.mul_add, Nat.mul_one]
      omega
    · exact ⟨hv, hi, hc⟩
  · refine ⟨hv, inv_reset, ?_⟩
    simp [slots_used, BatchedSPSCQueue.reset]

theorem count_fold_inv (ops : List QueueOp) {c : CommitCount} (hv : ValidConfig c.queue)
    (hi : IndexInv c.queue)
    (hc : slots_used c.queue + c.queue.dequeue_batch_size_ * c.reads =
      c.queue.enqueue_batch_size_ * c.writes) :
    ValidConfig (ops.foldl count_op c).queue ∧ IndexInv (ops.foldl count_op c).queue ∧
    (ops.foldl count_op c).queue = run_ops c.queue ops ∧
    slots_used (ops.foldl count_op c).queue +
        (ops.foldl count_op c).queue.dequeue_batch_size_ * (ops.foldl count_op c).reads =
      (ops.foldl count_op c).queue.enqueue_batch_size_ * (ops.foldl count_op c).writes := by
  induction ops generalizing c with
  | nil => exact ⟨hv, hi, rfl, hc⟩
  | cons op ops ih =>
    obtain ⟨h1, h2, h4⟩ := count_op_inv hv hi hc op
    obtain ⟨g1, g2, g3, g4⟩ := ih h1 h2 h4
    refine ⟨g1, g2, ?_, g4⟩
    rw [List.foldl_cons, g3, count_op_queue]
    rfl

/-- C12: for every valid configuration and every sequence of guarded calls on a
freshly constructed queue, `size()` equals `enq_batch` times the number of
`commit_write` calls minus `deq_batch` times the number of `commit_read` calls,
both counted since construction or the last `reset`. -/
theorem size_counts_elements (n e d s b : Nat) (ops : List QueueOp)
    (hv : ValidConfig (BatchedSPSCQueue.ctor n e d s b)) :
    (count_ops (BatchedSPSCQueue.ctor n e d s b) ops).queue =
      run_ops (BatchedSPSCQueue.ctor n e d s b) ops ∧
    ((run_ops (BatchedSPSCQueue.ctor n e d s b) ops).size : Int) =
      (e : Int) * (count_ops (BatchedSPSCQueue.ctor n e d s b) ops).writes -
      (d : Int) * (count_ops (BatchedSPSCQueue.ctor n e d s b) ops).reads := by
  have h0 : slots_used (BatchedSPSCQueue.ctor n e d s b) + d * 0 = e * 0 := by
    simp [slots_used, BatchedSPSCQueue.ctor]
  obtain ⟨g1, g2, g3, g4⟩ := count_fold_inv ops
    (c := { queue := BatchedSPSCQueue.ctor n e d s b, writes := 0, reads := 0 })
    hv (inv_ctor n e d s b) h0
  obtain ⟨-, -, -, c2, c3, -, -⟩ := reached_state n e d s b ops hv
  have g3' : (List.foldl count_op
      { queue := BatchedSPSCQueue.ctor n e d s b, writes := 0, reads := 0 } ops).queue =
      run_ops (BatchedSPSCQueue.ctor n e d s b) ops := g3
  refine ⟨g3', ?_⟩
  rw [g3'] at g1 g2 g4
  rw [c2, c3] at g4
  rw [size_eq g1 g2]
  unfold count_ops
  have := congrArg (fun x : Nat => (x : Int)) g4
  simp only [Nat.cast_add, Nat.cast_mul] at this
  omega

theorem size_counts_elements_witness :
    ValidConfig (BatchedSPSCQueue.ctor 12 3 2 1 16) ∧
    (count_ops (BatchedSPSCQueue.ctor 12 3 2 1 16)
      [QueueOp.enqueue, QueueOp.reset, QueueOp.enqueue, QueueOp.enqueue,
        QueueOp.dequeue]).writes = 2 ∧
    (count_ops (BatchedSPSCQueue.ctor 12 3 2 1 16)
      [QueueOp.enqueue, QueueOp.reset, QueueOp.enqueue, QueueOp.enqueue,
        QueueOp.dequeue]).reads = 1 ∧
    ((count_ops (BatchedSPSCQueue.ctor 12 3 2 1 16)
        [QueueOp.enqueue, QueueOp.reset, QueueOp.enqueue, QueueOp.enqueue,
          QueueOp.dequeue]).queue =
      run_ops (BatchedSPSCQueue.ctor 12 3 2 1 16)
        [QueueOp.enqueue, QueueOp.reset, QueueOp.enqueue, QueueOp.enqueue,
          QueueOp.dequeue] ∧
    ((run_ops (BatchedSPSCQueue.ctor 12 3 2 1 16)
        [QueueOp.enqueue, QueueOp.reset, QueueOp.enqueue, QueueOp.enqueue,
          QueueOp.dequeue]).size : Int) =
      ((3 : Nat) : Int) * (count_ops (BatchedSPSCQueue.ctor 12 3 2 1 16)
        [QueueOp.enqueue, QueueOp.reset, QueueOp.enqueue, QueueOp.enqueue,
          QueueOp.dequeue]).writes -
      ((2 : Nat) : Int) * (count_ops (BatchedSPSCQueue.ctor 12 3 2 1 16)
        [QueueOp.enqueue, QueueOp.reset, QueueOp.enqueue, QueueOp.enqueue,
          QueueOp.dequeue]).reads) :=
  ⟨by decide, by decide, by decide,
    size_counts_elements 12 3 2 1 16
      [QueueOp.enqueue, QueueOp.reset, QueueOp.enqueue, QueueOp.enqueue, QueueOp.dequeue]
      (by decide)⟩

/-! ## The producer commit -/

/-- C20: for every valid configuration and every state reachable by guarded
commits and reset, `commit_write` sets `write_idx` to
`(write_idx + enq_batch) mod nb_slots`, computed as `write_idx + enq_batch`
replaced by 0 when that equals `nb_slots`, and leaves `read_idx` and the five
construction parameters unchanged (for a queue without slots `x mod 0` is `x`). -/
theorem commit_write_advances (n e d s b : Nat) (ops : List QueueOp)
    (hv : ValidConfig (BatchedSPSCQueue.ctor n e d s b)) :
    (run_ops (BatchedSPSCQueue.ctor n e d s b) ops).commit_write.write_idx_ =
      ((run_ops (BatchedSPSCQueue.ctor n e d s b) ops).write_idx_ + e) % n ∧
    (run_ops (BatchedSPSCQueue.ctor n e d s b) ops).commit_write.write_idx_ =
      (if (run_ops (BatchedSPSCQueue.ctor n e d s b) ops).write_idx_ + e = n then 0
       else (run_ops (BatchedSPSCQueue.ctor n e d s b) ops).write_idx_ + e) ∧
    (run_ops (BatchedSPSCQueue.ctor n e d s b) ops).commit_write.read_idx_ =
      (run_ops (BatchedSPSCQueue.ctor n e d s b) ops).read_idx_ ∧
    (run_ops (BatchedSPSCQueue.ctor n e d s b) ops).commit_write.nb_slots_ = n ∧
    (run_ops (BatchedSPSCQueue.ctor n e d s b) ops).commit_write.enqueue_batch_size_ = e ∧
    (run_ops (BatchedSPSCQueue.ctor n e d s b) ops).commit_write.dequeue_batch_size_ = d ∧
    (run_ops (BatchedSPSCQueue.ctor n e d s b) ops).commit_write.element_size_ = s ∧
    (run_ops (BatchedSPSCQueue.ctor n e d s b) ops).commit_write.buffer_ = b := by
  obtain ⟨hvq, hiq, c1, c2, c3, c4, c5⟩ := reached_state n e d s b ops hv
  generalize run_ops (BatchedSPSCQueue.ctor n e d s b) ops = q at *
  subst c1 c2 c3 c4 c5
  refine ⟨?_, ?_, rfl, rfl, rfl, rfl, rfl, rfl⟩
  · rcases hiq with ⟨hn0, hw, -⟩ | ⟨hw, -, ha, -⟩
    · have he := hvq.1
      have he2 : q.enqueue_batch_size_ + 1 < 2 ^ 64 := hvq.2.2.2.2.2.2
      have hadd : wadd 0 q.enqueue_batch_size_ = q.enqueue_batch_size_ := by
        unfold wadd; omega
      simp only [BatchedSPSCQueue.commit_write, hw, hn0, hadd, Nat.zero_add, Nat.mod_zero]
      rw [if_neg (by omega)]
    · obtain ⟨hle, hidx⟩ := commit_write_idx hvq hw ha
      rw [hidx]
      split
      · rename_i h; rw [h, Nat.mod_self]
      · rw [Nat.mod_eq_of_lt (by omega)]
  · rcases hiq with ⟨hn0, hw, -⟩ | ⟨hw, -, ha, -⟩
    · have he2 : q.enqueue_batch_size_ + 1 < 2 ^ 64 := hvq.2.2.2.2.2.2
      have hadd : wadd 0 q.enqueue_batch_size_ = q.enqueue_batch_size_ := by
        unfold wadd; omega
      simp only [BatchedSPSCQueue.commit_write, hw, hadd, Nat.zero_add]
    · exact (commit_write_idx hvq hw ha).2

theorem commit_write_advances_witness :
    ValidConfig (BatchedSPSCQueue.ctor 6 3 2 1 16) ∧
    (run_ops (BatchedSPSCQueue.ctor 6 3 2 1 16)
      [QueueOp.enqueue, QueueOp.dequeue]).write_idx_ = 3 ∧
    (run_ops (BatchedSPSCQueue.ctor 6 3 2 1 16)
      [QueueOp.enqueue, QueueOp.dequeue]).commit_write.write_idx_ = 0 ∧
    ((run_ops (BatchedSPSCQueue.ctor 6 3 2 1 16)
        [QueueOp.enqueue, QueueOp.dequeue]).commit_write.write_idx_ =
      ((run_ops (BatchedSPSCQueue.ctor 6 3 2 1 16)
        [QueueOp.enqueue, QueueOp.dequeue]).write_idx_ + 3) % 6 ∧
    (run_ops (BatchedSPSCQueue.ctor 6 3 2 1 16)
        [QueueOp.enqueue, QueueOp.dequeue]).commit_write.write_idx_ =
      (if (run_ops (BatchedSPSCQueue.ctor 6 3 2 1 16)
          [QueueOp.enqueue, QueueOp.dequeue]).write_idx_ + 3 = 6 then 0
       else (run_ops (BatchedSPSCQueue.ctor 6 3 2 1 16)
          [QueueOp.enqueue, QueueOp.dequeue]).write_idx_ + 3) ∧
    (run_ops (BatchedSPSCQueue.ctor 6 3 2 1 16)
        [QueueOp.enqueue, QueueOp.dequeue]).commit_write.read_idx_ =
      (run_ops (BatchedSPSCQueue.ctor 6 3 2 1 16)
        [QueueOp.enqueue, QueueOp.dequeue]).read_idx_ ∧
    (run_ops (BatchedSPSCQueue.ctor 6 3 2 1 16)
      [QueueOp.enqueue, QueueOp.dequeue]).commit_write.nb_slots_ = 6 ∧
    (run_ops (BatchedSPSCQueue.ctor 6 3 2 1 16)
      [QueueOp.enqueue, QueueOp.dequeue]).commit_write.enqueue_batch_size_ = 3 ∧
    (run_ops (BatchedSPSCQueue.ctor 6 3 2 1 16)
      [QueueOp.enqueue, QueueOp.dequeue]).commit_write.dequeue_batch_size_ = 2 ∧
    (run_ops (BatchedSPSCQueue.ctor 6 3 2 1 16)
      [QueueOp.enqueue, QueueOp.dequeue]).commit_write.element_size_ = 1 ∧
    (run_ops (BatchedSPSCQueue.ctor 6 3 2 1 16)
      [QueueOp.enqueue, QueueOp.dequeue]).commit_write.buffer_ = 16) :=
  ⟨by decide, by decide, by decide,
    commit_write_advances 6 3 2 1 16 [QueueOp.enqueue, QueueOp.dequeue] (by decide)⟩

/-! ## Draining -/

/-- State after `k` consumer commits, while whole batches are stored. -/
theorem commit_reads_drain {q : BatchedSPSCQueue} (hv : ValidConfig q) (hi : IndexInv q)
    (k : Nat) (hk : k * q.dequeue_batch_size_ ≤ slots_used q) :
    ValidConfig (commit_reads q k) ∧ IndexInv (commit_reads q k) ∧
    slots_used (commit_reads q k) + k * q.dequeue_batch_size_ = slots_used q ∧
    (commit_reads q k).dequeue_batch_size_ = q.dequeue_batch_size_ := by
  induction k with
  | zero => exact ⟨hv, hi, by simp [commit_reads], rfl⟩
  | succ k ih =>
    rw [Nat.add_mul, Nat.one_mul] at hk
    obtain ⟨hvk, hik, hsk, hdk⟩ := ih (by omega)
    have hadm : ¬ slots_used (commit_reads q k) < (commit_reads q k).dequeue_batch_size_ := by
      rw [hdk]; omega
    have hptr := read_ptr_eq hvk hik
    rw [if_neg hadm] at hptr
    refine ⟨hvk, inv_commit_read hvk hik hptr, ?_, hdk⟩
    show slots_used (commit_reads q k).commit_read + _ = _
    have := slots_used_commit_read hvk hik hptr
    rw [hdk] at this
    rw [Nat.add_mul, Nat.one_mul]
    omega

/-- From a state of the index invariant exactly `slots_used / deq_batch`
consecutive dequeues succeed. -/
theorem drain_from {q : BatchedSPSCQueue} (hv : ValidConfig q) (hi : IndexInv q) :
    (∀ k, k < slots_used q / q.dequeue_batch_size_ →
      ∃ p, (commit_reads q k).read_ptr = some p) ∧
    (commit_reads q (slots_used q / q.dequeue_batch_size_)).read_ptr = none := by
  have hd := hv.2.1
  have hdiv := Nat.div_mul_le_self (slots_used q) q.dequeue_batch_size_
  constructor
  · intro k hk
    have hmul : (k + 1) * q.dequeue_batch_size_ ≤
        slots_used q / q.dequeue_batch_size_ * q.dequeue_batch_size_ :=
      Nat.mul_le_mul_right _ hk
    rw [Nat.add_mul, Nat.one_mul] at hmul
    obtain ⟨hvk, hik, hsk, hdk⟩ := commit_reads_drain hv hi k (by omega)
    refine ⟨_, (read_ptr_eq hvk hik).trans (if_neg ?_)⟩
    rw [hdk]; omega
  · obtain ⟨hvk, hik, hsk, hdk⟩ := commit_reads_drain hv hi _ hdiv
    refine (read_ptr_eq hvk hik).trans (if_pos ?_)
    rw [hdk]
    have h1 := Nat.mod_add_div (slots_used q) q.dequeue_batch_size_
    have h2 := Nat.mod_lt (slots_used q) (show 0 < q.dequeue_batch_size_ by omega)
    rw [Nat.mul_comm] at h1
    omega

theorem commit_writes_config (q : BatchedSPSCQueue) (k : Nat) :
    (commit_writes q k).nb_slots_ = q.nb_slots_ ∧
    (commit_writes q k).enqueue_batch_size_ = q.enqueue_batch_size_ ∧
    (commit_writes q k).dequeue_batch_size_ = q.dequeue_batch_size_ ∧
    (commit_writes q k).element_size_ = q.element_size_ ∧
    (commit_writes q k).buffer_ = q.buffer_ ∧
    (commit_writes q k).read_idx_ = q.read_idx_ := by
  induction k with
  | zero => exact ⟨rfl, rfl, rfl, rfl, rfl, rfl⟩
  | succ k ih => exact ih

/-- C13: for every valid configuration and every state reachable by guarded
commits and reset, with no producer call in between exactly
`floor(size() / deq_batch)` consecutive `read_ptr`/`commit_read` pairs succeed
and the next `read_ptr` returns `nullptr`; and after an empty reachable state
is filled by `m = (nb_slots - enq_batch) / enq_batch` enqueues, exactly
`(m * enq_batch) / deq_batch` dequeues succeed and the next `read_ptr` returns
`nullptr`. -/
theorem drain_count (n e d s b : Nat) (ops ops0 : List QueueOp)
    (hv : ValidConfig (BatchedSPSCQueue.ctor n e d s b))
    (hz : (run_ops (BatchedSPSCQueue.ctor n e d s b) ops0).size = 0) :
    ((∀ k, k < (run_ops (BatchedSPSCQueue.ctor n e d s b) ops).size / d →
        ∃ p, (commit_reads (run_ops (BatchedSPSCQueue.ctor n e d s b) ops) k).read_ptr
          = some p) ∧
      (commit_reads (run_ops (BatchedSPSCQueue.ctor n e d s b) ops)
        ((run_ops (BatchedSPSCQueue.ctor n e d s b) ops).size / d)).read_ptr = none) ∧
    ((∀ k, k < ((n - e) / e * e) / d →
        ∃ p, (commit_reads (commit_writes (run_ops (BatchedSPSCQueue.ctor n e d s b) ops0)
          ((n - e) / e)) k).read_ptr = some p) ∧
      (commit_reads (commit_writes (run_ops (BatchedSPSCQueue.ctor n e d s b) ops0)
        ((n - e) / e)) (((n - e) / e * e) / d)).read_ptr = none) := by
  constructor
  · obtain ⟨hvq, hiq, c1, c2, c3, -, -⟩ := reached_state n e d s b ops hv
    generalize run_ops (BatchedSPSCQueue.ctor n e d s b) ops = q at *
    subst c3
    rw [size_eq hvq hiq]; exact drain_from hvq hiq
  · obtain ⟨hvq, hiq, c1, c2, c3, -, -⟩ := reached_state n e d s b ops0 hv
    generalize run_ops (BatchedSPSCQueue.ctor n e d s b) ops0 = q at *
    subst c1 c2 c3
    rw [size_eq hvq hiq] at hz
    have hdiv : (q.nb_slots_ - q.enqueue_batch_size_) / q.enqueue_batch_size_ *
        q.enqueue_batch_size_ = q.nb_slots_ - q.enqueue_batch_size_ :=
      Nat.div_mul_cancel (Nat.dvd_sub' hvq.enq_dvd (Nat.dvd_refl _))
    obtain ⟨hvk, hik, hsk, -, -⟩ := commit_writes_from_empty hvq hiq hz
      ((q.nb_slots_ - q.enqueue_batch_size_) / q.enqueue_batch_size_) (by
        rw [hdiv]
        by_cases h : q.enqueue_batch_size_ ≤ q.nb_slots_
        · left; omega
        · right
          exact Nat.div_eq_of_lt (by omega))
    have := drain_from hvk hik
    rw [hsk, (commit_writes_config q _).2.2.1] at this
    exact this

theorem drain_count_witness :
    ValidConfig (BatchedSPSCQueue.ctor 12 3 2 1 16) ∧
    (run_ops (BatchedSPSCQueue.ctor 12 3 2 1 16)
      [QueueOp.enqueue, QueueOp.enqueue, QueueOp.dequeue, QueueOp.dequeue,
        QueueOp.dequeue]).size = 0 ∧
    (run_ops (BatchedSPSCQueue.ctor 12 3 2 1 16)
      [QueueOp.enqueue, QueueOp.enqueue, QueueOp.enqueue, QueueOp.dequeue]).size / 2 = 3 ∧
    (12 - 3) / 3 * 3 / 2 = 4 ∧
    (((∀ k, k < (run_ops (BatchedSPSCQueue.ctor 12 3 2 1 16)
          [QueueOp.enqueue, QueueOp.enqueue, QueueOp.enqueue, QueueOp.dequeue]).size / 2 →
        ∃ p, (commit_reads (run_ops (BatchedSPSCQueue.ctor 12 3 2 1 16)
          [QueueOp.enqueue, QueueOp.enqueue, QueueOp.enqueue, QueueOp.dequeue]) k).read_ptr
          = some p) ∧
      (commit_reads (run_ops (BatchedSPSCQueue.ctor 12 3 2 1 16)
          [QueueOp.enqueue, QueueOp.enqueue, QueueOp.enqueue, QueueOp.dequeue])
        ((run_ops (BatchedSPSCQueue.ctor 12 3 2 1 16)
          [QueueOp.enqueue, QueueOp.enqueue, QueueOp.enqueue, QueueOp.dequeue]).size
            / 2)).read_ptr = none) ∧
    ((∀ k, k < ((12 - 3) / 3 * 3) / 2 →
        ∃ p, (commit_reads (commit_writes (run_ops (BatchedSPSCQueue.ctor 12 3 2 1 16)
          [QueueOp.enqueue, QueueOp.enqueue, QueueOp.dequeue, QueueOp.dequeue,
            QueueOp.dequeue]) ((12 - 3) / 3)) k).read_ptr = some p) ∧
      (commit_reads (commit_writes (run_ops (BatchedSPSCQueue.ctor 12 3 2 1 16)
          [QueueOp.enqueue, QueueOp.enqueue, QueueOp.dequeue, QueueOp.dequeue,
            QueueOp.dequeue]) ((12 - 3) / 3)) (((12 - 3) / 3 * 3) / 2)).read_ptr = none)) :=
  ⟨by decide, by decide, by decide, by decide,
    drain_count 12 3 2 1 16
      [QueueOp.enqueue, QueueOp.enqueue, QueueOp.enqueue, QueueOp.dequeue]
      [QueueOp.enqueue, QueueOp.enqueue, QueueOp.dequeue, QueueOp.dequeue, QueueOp.dequeue]
      (by decide) (by decide)⟩

/-! ## Rotation rounds -/

theorem run_asserting_append (a b : List QueueOp) (q : BatchedSPSCQueue) :
    run_asserting q (a ++ b) = (run_asserting q a).bind fun q1 => run_asserting q1 b := by
  induction a generalizing q with
  | nil => rfl
  | cons op a ih =>
    cases op <;> simp only [List.cons_append, run_asserting]
    · split
      · exact ih _
      · rfl
    · split
      · exact ih _
      · rfl
    · exact ih _

theorem commit_writes_front (q : BatchedSPSCQueue) (k : Nat) :
    commit_writes q (k + 1) = commit_writes q.commit_write k := by
  induction k with
  | zero => rfl
  | succ k ih => show (commit_writes q (k + 1)).commit_write = _; rw [ih]; rfl

theorem commit_reads_front (q : BatchedSPSCQueue) (k : Nat) :
    commit_reads q (k + 1) = commit_reads q.commit_read k := by
  induction k with
  | zero => rfl
  | succ k ih => show (commit_reads q (k + 1)).commit_read = _; rw [ih]; rfl

theorem asserting_enqueues (k : Nat) (q : BatchedSPSCQueue)
    (h : ∀ j, j < k → ∃ p, (commit_writes q j).write_ptr = some p) :
    run_asserting q (List.replicate k QueueOp.enqueue) = some (commit_writes q k) := by
  induction k generalizing q with
  | zero => rfl
  | succ k ih =>
    obtain ⟨p, hp⟩ := h 0 (Nat.succ_pos k)
    have hp0 : q.write_ptr = some p := hp
    rw [List.replicate_succ, run_asserting, hp0, commit_writes_front]
    exact ih q.commit_write fun j hj => by
      rw [← commit_writes_front]; exact h (j + 1) (Nat.succ_lt_succ hj)

theorem asserting_dequeues (k : Nat) (q : BatchedSPSCQueue)
    (h : ∀ j, j < k → ∃ p, (commit_reads q j).read_ptr = some p) :
    run_asserting q (List.replicate k QueueOp.dequeue) = some (commit_reads q k) := by
  induction k generalizing q with
  | zero => rfl
  | succ k ih =>
    obtain ⟨p, hp⟩ := h 0 (Nat.succ_pos k)
    have hp0 : q.read_ptr = some p := hp
    rw [List.replicate_succ, run_asserting, hp0, commit_reads_front]
    exact ih q.commit_read fun j hj => by
      rw [← commit_reads_front]; exact h (j + 1) (Nat.succ_lt_succ hj)

theorem commit_reads_config (q : BatchedSPSCQueue) (k : Nat) :
    (commit_reads q k).nb_slots_ = q.nb_slots_ ∧
    (commit_reads q k).enqueue_batch_size_ = q.enqueue_batch_size_ ∧
    (commit_reads q k).dequeue_batch_size_ = q.dequeue_batch_size_ := by
  induction k with
  | zero => exact ⟨rfl, rfl, rfl⟩
  | succ k ih => exact ih

/-- One round of the shift loop from an empty queue: with room for
`deq_batch` whole enqueue batches every acquire succeeds and the queue is empty
again. -/
theorem shift_round_from_empty {q : BatchedSPSCQueue} (hv : ValidConfig q)
    (hi : IndexInv q) (hz : slots_used q = 0)
    (hcap : q.enqueue_batch_size_ * q.dequeue_batch_size_ < q.nb_slots_) :
    ∃ q1, run_asserting q (shift_round q.enqueue_batch_size_ q.dequeue_batch_size_) = some q1 ∧
      ValidConfig q1 ∧ IndexInv q1 ∧ slots_used q1 = 0 ∧
      q1.nb_slots_ = q.nb_slots_ ∧ q1.enqueue_batch_size_ = q.enqueue_batch_size_ ∧
      q1.dequeue_batch_size_ = q.dequeue_batch_size_ := by
  have he := hv.1
  have hcomm := Nat.mul_comm q.enqueue_batch_size_ q.dequeue_batch_size_
  have hroom : q.dequeue_batch_size_ * q.enqueue_batch_size_ + q.enqueue_batch_size_ ≤
      q.nb_slots_ :=
    aligned_add_le (Nat.dvd_mul_left _ _) hv.enq_dvd (by omega)
  have hwrites : ∀ j, j < q.dequeue_batch_size_ →
      ∃ p, (commit_writes q j).write_ptr = some p := by
    intro j hj
    have hmul : (j + 1) * q.enqueue_batch_size_ ≤
        q.dequeue_batch_size_ * q.enqueue_batch_size_ := Nat.mul_le_mul_right _ hj
    rw [Nat.add_mul, Nat.one_mul] at hmul
    obtain ⟨hvk, hik, hsk, hnk, hek⟩ := commit_writes_from_empty hv hi hz j (Or.inl (by omega))
    refine ⟨_, (write_ptr_eq hvk hik).trans (if_neg ?_)⟩
    rw [hsk, hnk, hek]; omega
  obtain ⟨hvd, hid, hsd, hnd, hed⟩ :=
    commit_writes_from_empty hv hi hz q.dequeue_batch_size_ (Or.inl hroom)
  have hdd := (commit_writes_config q q.dequeue_batch_size_).2.2.1
  have hdpos : 0 < q.dequeue_batch_size_ := hv.2.1
  have hquot : slots_used (commit_writes q q.dequeue_batch_size_) /
      (commit_writes q q.dequeue_batch_size_).dequeue_batch_size_ = q.enqueue_batch_size_ := by
    rw [hsd, hdd]; exact Nat.mul_div_cancel_left _ hdpos
  have hreads := (drain_from hvd hid).1
  rw [hquot] at hreads
  obtain ⟨hvr, hir, hsr, hdr⟩ := commit_reads_drain hvd hid q.enqueue_batch_size_
    (by rw [hsd, hdd]; omega)
  obtain ⟨r1, r2, -⟩ := commit_reads_config (commit_writes q q.dequeue_batch_size_)
    q.enqueue_batch_size_
  refine ⟨commit_reads (commit_writes q q.dequeue_batch_size_) q.enqueue_batch_size_,
    ?_, hvr, hir, ?_, r1.trans hnd, r2.trans hed, hdr.trans hdd⟩
  · unfold shift_round
    rw [run_asserting_append, asserting_enqueues _ q hwrites]
    exact asserting_dequeues _ _ hreads
  · rw [hsd, hdd] at hsr; omega

theorem shift_rounds_from_empty (i : Nat) {q : BatchedSPSCQueue} (hv : ValidConfig q)
    (hi : IndexInv q) (hz : slots_used q = 0)
    (hcap : q.enqueue_batch_size_ * q.dequeue_batch_size_ < q.nb_slots_) :
    ∃ q1, run_asserting q (shift_rounds q.enqueue_batch_size_ q.dequeue_batch_size_ i)
        = some q1 ∧
      ValidConfig q1 ∧ IndexInv q1 ∧ slots_used q1 = 0 := by
  induction i generalizing q with
  | zero => exact ⟨q, rfl, hv, hi, hz⟩
  | succ i ih =>
    obtain ⟨q1, hrun, hv1, hi1, hz1, c1, c2, c3⟩ := shift_round_from_empty hv hi hz hcap
    obtain ⟨q2, hrun2, hv2, hi2, hz2⟩ := ih hv1 hi1 hz1 (by rw [c1, c2, c3]; exact hcap)
    refine ⟨q2, ?_, hv2, hi2, hz2⟩
    rw [c2, c3] at hrun2
    show run_asserting q (shift_round _ _ ++ shift_rounds _ _ i) = _
    rw [run_asserting_append, hrun]
    exact hrun2

/-- C14, as stated, fails: with `nb_slots = 6`, `enq_batch = 3`, `deq_batch = 2`
the first round asks for two enqueues, and the second `write_ptr` returns
`nullptr` (3 slots are used and only 3 of the required 4 are free). -/
theorem rotation_rounds_counterexample :
    ValidConfig (BatchedSPSCQueue.ctor 6 3 2 1 16) ∧
    (BatchedSPSCQueue.ctor 6 3 2 1 16).commit_write.write_ptr = none ∧
    run_asserting (BatchedSPSCQueue.ctor 6 3 2 1 16) (shift_rounds 3 2 1) = none := by
  decide

/-- C14 (amended): for every valid configuration with
`enq_batch * deq_batch < nb_slots` and every number of rounds `i`, starting from
a freshly constructed queue, `i` rounds each made of `deq_batch`
`write_ptr`/`commit_write` pairs followed by `enq_batch` `read_ptr`/`commit_read`
pairs succeed at every step and leave `size() == 0`. -/
theorem rotation_rounds (n e d s b : Nat) (i : Nat)
    (hv : ValidConfig (BatchedSPSCQueue.ctor n e d s b)) (hcap : e * d < n) :
    ∃ q, run_asserting (BatchedSPSCQueue.ctor n e d s b) (shift_rounds e d i) = some q ∧
      q.size = 0 := by
  have hz : slots_used (BatchedSPSCQueue.ctor n e d s b) = 0 := by
    simp [slots_used, BatchedSPSCQueue.ctor]
  obtain ⟨q, hrun, hvq, hiq, hzq⟩ :=
    shift_rounds_from_empty i hv (inv_ctor n e d s b) hz hcap
  exact ⟨q, hrun, (size_eq hvq hiq).trans hzq⟩

theorem rotation_rounds_witness :
    ValidConfig (BatchedSPSCQueue.ctor 12 3 2 1 16) ∧ 3 * 2 < 12 ∧
    (∃ q, run_asserting (BatchedSPSCQueue.ctor 12 3 2 1 16) (shift_rounds 3 2 5) = some q ∧
      q.size = 0) :=
  ⟨by decide, by decide, rotation_rounds 12 3 2 1 16 5 (by decide) (by decide)⟩

/-! ## Tensor descriptor -/

/-- C15 fails on the code: the constructor returns for shape `[1, 2^32]` and
strides `[4, 2^32]` with `type_size = 4`, because the `size_t` product
`shape[1] * strides[1] = 2^64` wraps to 0; the stored values violate
`strides[0] ≥ shape[1] * strides[1]` for the mathematical product. -/
theorem descriptor_validity_overflow :
    TensorDescriptor.ctor "float" 4 [1, 4294967296] [4, 4294967296] =
      some { type_name_ := "float", type_size_ := 4, shape_ := [1, 4294967296],
             strides_ := [4, 4294967296] } ∧
    wmul 4294967296 4294967296 = 0 ∧
    ¬ (4294967296 * 4294967296 ≤ 4) ∧
    ¬ ValidStrides 4 [1, 4294967296] [4, 4294967296] := by
  decide

theorem wmul_le (a b : Nat) : wmul a b ≤ a * b := Nat.mod_le _ _

/-- Arguments that satisfy the validation conditions over the natural numbers
pass every check of the constructor. -/
theorem ctor_of_valid (type_name : String) (type_size : Nat) (shape strides : List Nat)
    (h : ValidStrides type_size shape strides) :
    TensorDescriptor.ctor type_name type_size shape strides =
      some { type_name_ := type_name, type_size_ := type_size, shape_ := shape,
             strides_ := strides } := by
  obtain ⟨hlen, hrest⟩ := h
  unfold TensorDescriptor.ctor
  rw [if_neg (not_not.2 hlen)]
  by_cases hs : shape = []
  · subst hs; rfl
  · obtain ⟨h1, h2⟩ := hrest hs
    have hne : shape.isEmpty = false := by
      cases shape with
      | nil => exact absurd rfl hs
      | cons x xs => rfl
    rw [hne]
    simp only [Bool.false_eq_true, if_false]
    rw [if_neg (not_not.2 h1), if_pos]
    rw [List.all_eq_true]
    intro i hi
    rw [List.mem_range'_1] at hi
    have hlt : shape.length - i - 1 < shape.length - 1 := by omega
    have hnext : shape.length - i = shape.length - i - 1 + 1 := by omega
    have := h2 _ hlt
    rw [← hnext] at this
    exact decide_eq_true (Nat.le_trans (wmul_le _ _) this)

/-- C16: for every `(type_name, type_size, shape, strides)` with
`|shape| == |strides|` and either an empty shape, or `strides[last] ≥ type_size`
and `strides[i] ≥ shape[i+1] * strides[i+1]` for every `i < len - 1`, the
constructor returns, and `type_name()`, `type_size()`, `shape()`, `strides()`
return exactly the given arguments. -/
theorem descriptor_accepts_valid (type_name : String) (type_size : Nat)
    (shape strides : List Nat) (h : ValidStrides type_size shape strides) :
    ∃ t, TensorDescriptor.ctor type_name type_size shape strides = some t ∧
      t.type_name = type_name ∧ t.type_size = type_size ∧
      t.shape = shape ∧ t.strides = strides :=
  ⟨_, ctor_of_valid type_name type_size shape strides h, rfl, rfl, rfl, rfl⟩

theorem descriptor_accepts_valid_witness :
    ValidStrides 4 [4, 4] [16, 4] ∧ ValidStrides 4 [] [] ∧
    (∃ t, TensorDescriptor.ctor "float" 4 [4, 4] [16, 4] = some t ∧
      t.type_name = "float" ∧ t.type_size = 4 ∧
      t.shape = [4, 4] ∧ t.strides = [16, 4]) :=
  ⟨by decide, by decide, descriptor_accepts_valid "float" 4 [4, 4] [16, 4] (by decide)⟩

/-- C17: `a == b` holds exactly when the type names, the type sizes and the
shapes are equal, whatever the strides, and `a != b` is the negation of
`a == b`. -/
theorem descriptor_equality (a b : TensorDescriptor) :
    (TensorDescriptor.op_eq a b = true ↔
      a.type_name = b.type_name ∧ a.type_size = b.type_size ∧ a.shape = b.shape) ∧
    (∀ sa sb : List Nat,
      TensorDescriptor.op_eq { a with strides_ := sa } { b with strides_ := sb } =
        TensorDescriptor.op_eq a b) ∧
    TensorDescriptor.op_ne a b = !TensorDescriptor.op_eq a b := by
  refine ⟨?_, fun _ _ => rfl, rfl⟩
  simp only [TensorDescriptor.op_eq, TensorDescriptor.type_name, TensorDescriptor.type_size,
    TensorDescriptor.shape, Bool.and_eq_true, beq_iff_eq, and_assoc]

/-- What a returning constructor has checked: the arguments are stored, the
lengths agree and the stride conditions hold for the `size_t` products. -/
theorem ctor_some {type_name : String} {type_size : Nat} {shape : List Nat}
    {strides : List Nat} {t : TensorDescriptor}
    (h : TensorDescriptor.ctor type_name type_size shape strides = some t) :
    t = { type_name_ := type_name, type_size_ := type_size, shape_ := shape,
          strides_ := strides } ∧
    shape.length = strides.length ∧
    (shape ≠ [] →
      type_size ≤ strides.getD (shape.length - 1) 0 ∧
      ∀ i, i < shape.length - 1 →
        wmul (shape.getD (i + 1) 0) (strides.getD (i + 1) 0) ≤ strides.getD i 0) := by
  unfold TensorDescriptor.ctor at h
  split at h
  · exact absurd h (by simp)
  · rename_i hlen
    have hlen : shape.length = strides.length := not_not.1 hlen
    split at h
    · rename_i hemp
      refine ⟨(Option.some.inj h).symm, hlen, fun hne => ?_⟩
      cases shape with
      | nil => exact absurd rfl hne
      | cons x xs => exact absurd hemp (by simp)
    · simp only at h
      split at h
      · exact absurd h (by simp)
      · rename_i hlast
        split at h
        · rename_i hall
          refine ⟨(Option.some.inj h).symm, hlen, fun _ => ⟨not_not.1 hlast, fun i hi => ?_⟩⟩
          rw [List.all_eq_true] at hall
          have := hall (shape.length - 1 - i) (by rw [List.mem_range'_1]; omega)
          have e1 : shape.length - (shape.length - 1 - i) = i + 1 := by omega
          have e2 : shape.length - (shape.length - 1 - i) - 1 = i := by omega
          simp only [e1, e2] at this
          exact of_decide_eq_true this
        · exact absurd h (by simp)

/-- When no `size_t` product wraps, a returning constructor has validated the
conditions over the natural numbers. -/
theorem ctor_some_valid {type_name : String} {type_size : Nat} {shape : List Nat}
    {strides : List Nat} {t : TensorDescriptor}
    (h : TensorDescriptor.ctor type_name type_size shape strides = some t)
    (hfit : ∀ i, i < shape.length - 1 →
      shape.getD (i + 1) 0 * strides.getD (i + 1) 0 < 2 ^ 64) :
    ValidStrides type_size shape strides := by
  obtain ⟨-, hlen, hrest⟩ := ctor_some h
  refine ⟨hlen, fun hne => ⟨(hrest hne).1, fun i hi => ?_⟩⟩
  have := (hrest hne).2 i hi
  rwa [wmul_of_lt (hfit i hi)] at this

/-- C18, as stated, fails: for the constructed descriptor with shape `[2^32]`
and strides `[2^32]` the result of `size_in_bytes()` is 0, not
`shape[0] * strides[0] = 2^64`. -/
theorem size_in_bytes_counterexample :
    TensorDescriptor.ctor "float" 4 [4294967296] [4294967296] =
      some { type_name_ := "float", type_size_ := 4, shape_ := [4294967296],
             strides_ := [4294967296] } ∧
    (TensorDescriptor.mk "float" 4 [4294967296] [4294967296]).size_in_bytes = 0 ∧
    4294967296 * 4294967296 ≠ 0 := by
  decide

/-- C18 (amended): for every constructed descriptor, `size_in_bytes()` returns 0
when the shape is empty and the `size_t` product of `shape[0]` and `strides[0]`,
that is `shape[0] * strides[0]` modulo `2^64`, when it is non-empty; this is
`shape[0] * strides[0]` whenever that product is below `2^64`. -/
theorem size_in_bytes_value (type_name : String) (type_size : Nat)
    (shape strides : List Nat) (t : TensorDescriptor)
    (h : TensorDescriptor.ctor type_name type_size shape strides = some t) :
    (shape = [] → t.size_in_bytes = 0) ∧
    (shape ≠ [] → t.size_in_bytes = (shape.getD 0 0 * strides.getD 0 0) % 2 ^ 64) ∧
    (shape ≠ [] → shape.getD 0 0 * strides.getD 0 0 < 2 ^ 64 →
      t.size_in_bytes = shape.getD 0 0 * strides.getD 0 0) := by
  obtain ⟨ht, hlen, -⟩ := ctor_some h
  subst ht
  have key : shape ≠ [] → TensorDescriptor.size_in_bytes
      { type_name_ := type_name, type_size_ := type_size, shape_ := shape,
        strides_ := strides } = (shape.getD 0 0 * strides.getD 0 0) % 2 ^ 64 := by
    intro hne
    cases shape with
    | nil => exact absurd rfl hne
    | cons x xs =>
      cases strides with
      | nil => simp at hlen
      | cons y ys => rfl
  refine ⟨fun hs => ?_, key, fun hne hfit => ?_⟩
  · subst hs; rfl
  · rw [key hne, Nat.mod_eq_of_lt hfit]

theorem size_in_bytes_value_witness :
    TensorDescriptor.ctor "float" 4 [4, 4] [16, 4] =
      some (TensorDescriptor.mk "float" 4 [4, 4] [16, 4]) ∧
    (TensorDescriptor.mk "float" 4 [4, 4] [16, 4]).size_in_bytes = 64 ∧
    ((([4, 4] : List Nat) = [] →
      (TensorDescriptor.mk "float" 4 [4, 4] [16, 4]).size_in_bytes = 0) ∧
    (([4, 4] : List Nat) ≠ [] →
      (TensorDescriptor.mk "float" 4 [4, 4] [16, 4]).size_in_bytes =
        (([4, 4] : List Nat).getD 0 0 * ([16, 4] : List Nat).getD 0 0) % 2 ^ 64) ∧
    (([4, 4] : List Nat) ≠ [] →
      ([4, 4] : List Nat).getD 0 0 * ([16, 4] : List Nat).getD 0 0 < 2 ^ 64 →
      (TensorDescriptor.mk "float" 4 [4, 4] [16, 4]).size_in_bytes =
        ([4, 4] : List Nat).getD 0 0 * ([16, 4] : List Nat).getD 0 0)) :=
  ⟨by decide, by decide,
    size_in_bytes_value "float" 4 [4, 4] [16, 4] _ (by decide)⟩

/-! ## Tensor -/

/-- C19: for every tensor built from a descriptor `d` and a byte pointer `p` and
every requested element size `s = sizeof(T)`, `data<T>()` returns `p` when
`s == d.type_size` and is fatal otherwise; the outcome does not depend on
`d.type_name`, and `desc()` returns a descriptor equal to `d`. -/
theorem typed_view_guard (d : TensorDescriptor) (p s : Nat) :
    (s = d.type_size → (Tensor.ctor d p).data s = some p) ∧
    (s ≠ d.type_size → (Tensor.ctor d p).data s = none) ∧
    (∀ other_name : String,
      (Tensor.ctor { d with type_name_ := other_name } p).data s =
        (Tensor.ctor d p).data s) ∧
    (Tensor.ctor d p).desc = d ∧
    TensorDescriptor.op_eq (Tensor.ctor d p).desc d = true := by
  refine ⟨fun h => ?_, fun h => ?_, fun _ => rfl, rfl, ?_⟩
  · simp [Tensor.data, Tensor.ctor, h]
  · simp [Tensor.data, Tensor.ctor, h]
  · simp [TensorDescriptor.op_eq, Tensor.desc, Tensor.ctor]

/-! ## The consumer commit -/

/-- C21: for every valid configuration (with `deq_batch` a `size_t` value) and
every state reachable by guarded commits and reset, `commit_read` sets
`read_idx` to `(read_idx + deq_batch) mod nb_slots`, computed as
`read_idx + deq_batch` replaced by 0 when that equals `nb_slots`, and leaves
`write_idx` and the five construction parameters unchanged (for a queue without
slots `x mod 0` is `x`). -/
theorem commit_read_advances (n e d s b : Nat) (ops : List QueueOp)
    (hv : ValidConfig (BatchedSPSCQueue.ctor n e d s b)) (hd : d < 2 ^ 64) :
    (run_ops (BatchedSPSCQueue.ctor n e d s b) ops).commit_read.read_idx_ =
      ((run_ops (BatchedSPSCQueue.ctor n e d s b) ops).read_idx_ + d) % n ∧
    (run_ops (BatchedSPSCQueue.ctor n e d s b) ops).commit_read.read_idx_ =
      (if (run_ops (BatchedSPSCQueue.ctor n e d s b) ops).read_idx_ + d = n then 0
       else (run_ops (BatchedSPSCQueue.ctor n e d s b) ops).read_idx_ + d) ∧
    (run_ops (BatchedSPSCQueue.ctor n e d s b) ops).commit_read.write_idx_ =
      (run_ops (BatchedSPSCQueue.ctor n e d s b) ops).write_idx_ ∧
    (run_ops (BatchedSPSCQueue.ctor n e d s b) ops).commit_read.nb_slots_ = n ∧
    (run_ops (BatchedSPSCQueue.ctor n e d s b) ops).commit_read.enqueue_batch_size_ = e ∧
    (run_ops (BatchedSPSCQueue.ctor n e d s b) ops).commit_read.dequeue_batch_size_ = d ∧
    (run_ops (BatchedSPSCQueue.ctor n e d s b) ops).commit_read.element_size_ = s ∧
    (run_ops (BatchedSPSCQueue.ctor n e d s b) ops).commit_read.buffer_ = b := by
  obtain ⟨hvq, hiq, c1, c2, c3, c4, c5⟩ := reached_state n e d s b ops hv
  generalize run_ops (BatchedSPSCQueue.ctor n e d s b) ops = q at *
  subst c1 c2 c3 c4 c5
  have hadd0 : wadd 0 q.dequeue_batch_size_ = q.dequeue_batch_size_ := by
    unfold wadd; omega
  have hpos := hvq.2.1
  refine ⟨?_, ?_, rfl, rfl, rfl, rfl, rfl, rfl⟩
  · rcases hiq with ⟨hn0, -, hr⟩ | ⟨-, hr, -, hb⟩
    · simp only [BatchedSPSCQueue.commit_read, hr, hn0, hadd0, Nat.zero_add, Nat.mod_zero]
      rw [if_neg (by omega)]
    · obtain ⟨hle, hidx⟩ := commit_read_idx hvq hr hb
      rw [hidx]
      split
      · rename_i h; rw [h, Nat.mod_self]
      · rw [Nat.mod_eq_of_lt (by omega)]
  · rcases hiq with ⟨hn0, -, hr⟩ | ⟨-, hr, -, hb⟩
    · simp only [BatchedSPSCQueue.commit_read, hr, hadd0, Nat.zero_add]
    · exact (commit_read_idx hvq hr hb).2

theorem commit_read_advances_witness :
    ValidConfig (BatchedSPSCQueue.ctor 6 3 2 1 16) ∧ 2 < 2 ^ 64 ∧
    (run_ops (BatchedSPSCQueue.ctor 6 3 2 1 16)
      [QueueOp.enqueue, QueueOp.dequeue, QueueOp.enqueue, QueueOp.dequeue]).read_idx_ = 4 ∧
    (run_ops (BatchedSPSCQueue.ctor 6 3 2 1 16)
      [QueueOp.enqueue, QueueOp.dequeue, QueueOp.enqueue,
        QueueOp.dequeue]).commit_read.read_idx_ = 0 ∧
    ((run_ops (BatchedSPSCQueue.ctor 6 3 2 1 16)
        [QueueOp.enqueue, QueueOp.dequeue, QueueOp.enqueue,
          QueueOp.dequeue]).commit_read.read_idx_ =
      ((run_ops (BatchedSPSCQueue.ctor 6 3 2 1 16)
        [QueueOp.enqueue, QueueOp.dequeue, QueueOp.enqueue,
          QueueOp.dequeue]).read_idx_ + 2) % 6 ∧
    (run_ops (BatchedSPSCQueue.ctor 6 3 2 1 16)
        [QueueOp.enqueue, QueueOp.dequeue, QueueOp.enqueue,
          QueueOp.dequeue]).commit_read.read_idx_ =
      (if (run_ops (BatchedSPSCQueue.ctor 6 3 2 1 16)
          [QueueOp.enqueue, QueueOp.dequeue, QueueOp.enqueue,
            QueueOp.dequeue]).read_idx_ + 2 = 6 then 0
       else (run_ops (BatchedSPSCQueue.ctor 6 3 2 1 16)
          [QueueOp.enqueue, QueueOp.dequeue, QueueOp.enqueue,
            QueueOp.dequeue]).read_idx_ + 2) ∧
    (run_ops (BatchedSPSCQueue.ctor 6 3 2 1 16)
        [QueueOp.enqueue, QueueOp.dequeue, QueueOp.enqueue,
          QueueOp.dequeue]).commit_read.write_idx_ =
      (run_ops (BatchedSPSCQueue.ctor 6 3 2 1 16)
        [QueueOp.enqueue, QueueOp.dequeue, QueueOp.enqueue, QueueOp.dequeue]).write_idx_ ∧
    (run_ops (BatchedSPSCQueue.ctor 6 3 2 1 16)
      [QueueOp.enqueue, QueueOp.dequeue, QueueOp.enqueue,
        QueueOp.dequeue]).commit_read.nb_slots_ = 6 ∧
    (run_ops (BatchedSPSCQueue.ctor 6 3 2 1 16)
      [QueueOp.enqueue, QueueOp.dequeue, QueueOp.enqueue,
        QueueOp.dequeue]).commit_read.enqueue_batch_size_ = 3 ∧
    (run_ops (BatchedSPSCQueue.ctor 6 3 2 1 16)
      [QueueOp.enqueue, QueueOp.dequeue, QueueOp.enqueue,
        QueueOp.dequeue]).commit_read.dequeue_batch_size_ = 2 ∧
    (run_ops (BatchedSPSCQueue.ctor 6 3 2 1 16)
      [QueueOp.enqueue, QueueOp.dequeue, QueueOp.enqueue,
        QueueOp.dequeue]).commit_read.element_size_ = 1 ∧
    (run_ops (BatchedSPSCQueue.ctor 6 3 2 1 16)
      [QueueOp.enqueue, QueueOp.dequeue, QueueOp.enqueue,
        QueueOp.dequeue]).commit_read.buffer_ = 16) :=
  ⟨by decide, by decide, by decide, by decide,
    commit_read_advances 6 3 2 1 16
      [QueueOp.enqueue, QueueOp.dequeue, QueueOp.enqueue, QueueOp.dequeue]
      (by decide) (by decide)⟩

/-! ## Acquire without commit -/

theorem writer_size_call_eq (q : BatchedSPSCQueue) :
    writer_size_call q = (q.writer_size, q) := by
  unfold writer_size_call load_write_idx load_read_idx BatchedSPSCQueue.writer_size
  by_cases h : q.write_idx_ < q.read_idx_
  · simp [bind, StateT.bind, get, getThe, MonadStateOf.get, StateT.get, pure, StateT.pure, h]
  · simp [bind, StateT.bind, get, getThe, MonadStateOf.get, StateT.get, pure, StateT.pure, h]

theorem reader_size_call_eq (q : BatchedSPSCQueue) :
    reader_size_call q = (q.reader_size, q) := by
  unfold reader_size_call load_write_idx load_read_idx BatchedSPSCQueue.reader_size
  by_cases h : q.write_idx_ < q.read_idx_
  · simp [bind, StateT.bind, get, getThe, MonadStateOf.get, StateT.get, pure, StateT.pure, h]
  · simp [bind, StateT.bind, get, getThe, MonadStateOf.get, StateT.get, pure, StateT.pure, h]

theorem size_call_eq (q : BatchedSPSCQueue) : size_call q = (q.size, q) := by
  unfold size_call load_write_idx load_read_idx BatchedSPSCQueue.size
  by_cases h : q.write_idx_ < q.read_idx_
  · simp [bind, StateT.bind, get, getThe, MonadStateOf.get, StateT.get, pure, StateT.pure, h]
  · simp [bind, StateT.bind, get, getThe, MonadStateOf.get, StateT.get, pure, StateT.pure, h]

theorem write_ptr_call_eq (q : BatchedSPSCQueue) :
    write_ptr_call q = (q.write_ptr, q) := by
  unfold write_ptr_call BatchedSPSCQueue.write_ptr
  simp only [bind, StateT.bind, writer_size_call_eq, get, getThe, MonadStateOf.get,
    StateT.get]
  by_cases h : wsub q.nb_slots_ q.writer_size < wadd q.enqueue_batch_size_ 1
  · simp [h, pure, StateT.pure]
  · simp [h, pure, StateT.pure, load_write_idx, StateT.bind]

theorem read_ptr_call_eq (q : BatchedSPSCQueue) :
    read_ptr_call q = (q.read_ptr, q) := by
  unfold read_ptr_call BatchedSPSCQueue.read_ptr
  simp only [bind, StateT.bind, reader_size_call_eq, get, getThe, MonadStateOf.get,
    StateT.get]
  by_cases h : q.reader_size < q.dequeue_batch_size_
  · simp [h, pure, StateT.pure]
  · simp [h, pure, StateT.pure, load_read_idx, StateT.bind]

theorem acquire_eq (q : BatchedSPSCQueue) (c : Acquire) : acquire q c = q := by
  cases c
  · show (write_ptr_call q).2 = q; rw [write_ptr_call_eq]
  · show (read_ptr_call q).2 = q; rw [read_ptr_call_eq]
  · show (size_call q).2 = q; rw [size_call_eq]

theorem acquire_foldl_eq (cs : List Acquire) (q : BatchedSPSCQueue) :
    cs.foldl acquire q = q := by
  induction cs generalizing q with
  | nil => rfl
  | cons c cs ih => rw [List.foldl_cons, acquire_eq, ih]

/-- C22: in every state, `write_ptr`, `read_ptr` and `size` leave `write_idx`,
`read_idx` and all other fields unchanged; so after any number of such calls
`write_ptr` and `read_ptr` return what they returned before: absent stays
absent, and an uncommitted acquire returns the same pointer again. -/
theorem acquire_without_commit (q : BatchedSPSCQueue) (cs : List Acquire) :
    (write_ptr_call q).2 = q ∧ (read_ptr_call q).2 = q ∧ (size_call q).2 = q ∧
    cs.foldl acquire q = q ∧
    (write_ptr_call (cs.foldl acquire q)).1 = (write_ptr_call q).1 ∧
    (read_ptr_call (cs.foldl acquire q)).1 = (read_ptr_call q).1 ∧
    (write_ptr_call q).1 = q.write_ptr ∧ (read_ptr_call q).1 = q.read_ptr ∧
    (size_call q).1 = q.size := by
  rw [acquire_foldl_eq, write_ptr_call_eq, read_ptr_call_eq, size_call_eq]
  exact ⟨rfl, rfl, rfl, rfl, rfl, rfl, rfl, rfl, rfl⟩

/-! ## size() as the modular occupancy -/

/-- C23: for all `write_idx` and `read_idx` in `[0, nb_slots)` (with `nb_slots`
a `size_t` value), the value computed by `size()`, and identically by
`writer_size()` and `reader_size()`, with `size_t` arithmetic wrapping modulo
`2^64`, equals the mathematical `(write_idx - read_idx) mod nb_slots`. -/
theorem size_is_occupancy (q : BatchedSPSCQueue) (hn : q.nb_slots_ < 2 ^ 64)
    (hw : q.write_idx_ < q.nb_slots_) (hr : q.read_idx_ < q.nb_slots_) :
    (q.size : Int) = occupancy q ∧ q.writer_size = q.size ∧ q.reader_size = q.size := by
  refine ⟨?_, rfl, rfl⟩
  unfold BatchedSPSCQueue.size occupancy
  by_cases h : q.write_idx_ < q.read_idx_
  · simp only [h, if_true]
    rw [wsub_wadd_of_lt h hr hn, ← Int.add_emod_self, Int.emod_eq_of_lt (by omega) (by omega)]
    omega
  · simp only [h, if_false]
    rw [wsub_of_le (by omega) (by omega), Int.emod_eq_of_lt (by omega) (by omega)]
    omega

theorem size_is_occupancy_witness :
    (6 : Nat) < 2 ^ 64 ∧ (0 : Nat) < 6 ∧ (2 : Nat) < 6 ∧
    (BatchedSPSCQueue.mk 6 3 2 1 16 0 2).size = 4 ∧
    wsub 0 2 = 18446744073709551614 ∧
    (((BatchedSPSCQueue.mk 6 3 2 1 16 0 2).size : Int) =
        occupancy (BatchedSPSCQueue.mk 6 3 2 1 16 0 2) ∧
      (BatchedSPSCQueue.mk 6 3 2 1 16 0 2).writer_size =
        (BatchedSPSCQueue.mk 6 3 2 1 16 0 2).size ∧
      (BatchedSPSCQueue.mk 6 3 2 1 16 0 2).reader_size =
        (BatchedSPSCQueue.mk 6 3 2 1 16 0 2).size) :=
  ⟨by decide, by decide, by decide, by decide, by decide,
    size_is_occupancy (BatchedSPSCQueue.mk 6 3 2 1 16 0 2) (by decide) (by decide)
      (by decide)⟩

/-! ## fill and reset -/

/-- C24 fails on the code: `fill()` stores `nb_slots` itself into `write_idx`,
which is never a slot index; for `nb_slots = 6`, `enq_batch = 3`,
`deq_batch = 2` the filled queue has `write_idx = 6`, and after two dequeues
`write_ptr` returns the address one past the end of the storage. -/
theorem fill_index_out_of_range :
    (∀ q : BatchedSPSCQueue, q.fill.write_idx_ = q.fill.nb_slots_ ∧
      ¬ q.fill.write_idx_ < q.fill.nb_slots_) ∧
    ValidConfig (BatchedSPSCQueue.ctor 6 3 2 1 16) ∧
    (BatchedSPSCQueue.ctor 6 3 2 1 16).fill.write_idx_ = 6 ∧
    (commit_reads (BatchedSPSCQueue.ctor 6 3 2 1 16).fill 2).read_ptr = some (16 + 4 * 1) ∧
    (commit_reads (BatchedSPSCQueue.ctor 6 3 2 1 16).fill 2).write_ptr = some (16 + 6 * 1) := by
  refine ⟨fun q => ⟨rfl, Nat.lt_irrefl _⟩, ?_⟩
  decide

/-- C25: for every valid configuration (a queue with at least one slot) and
every prior state, immediately after `fill()` `read_idx == 0` and
`write_idx - read_idx == nb_slots`, so `size()` returns `nb_slots`, `write_ptr`
returns `nullptr` and `read_ptr` returns a pointer to the start of the storage. -/
theorem fill_full (q : BatchedSPSCQueue) (hv : ValidConfig q) (hn : 1 ≤ q.nb_slots_) :
    q.fill.read_idx_ = 0 ∧
    (q.fill.write_idx_ : Int) - (q.fill.read_idx_ : Int) = (q.nb_slots_ : Int) ∧
    q.fill.size = q.nb_slots_ ∧
    q.fill.write_ptr = none ∧
    q.fill.read_ptr = some q.buffer_ := by
  have hlt := hv.slots_lt
  have he : q.enqueue_batch_size_ + 1 < 2 ^ 64 := hv.2.2.2.2.2.2
  have hd : q.dequeue_batch_size_ ≤ q.nb_slots_ := Nat.le_of_dvd (by omega) hv.deq_dvd
  have hb := index_mul_lt hv (Nat.zero_le q.nb_slots_)
  have hsize : q.fill.size = q.nb_slots_ := by
    simp only [BatchedSPSCQueue.size, BatchedSPSCQueue.fill, Nat.not_lt_zero, if_false]
    exact wsub_of_le (Nat.zero_le _) hlt
  refine ⟨rfl, by simp [BatchedSPSCQueue.fill], hsize, ?_, ?_⟩
  · have hws : q.fill.writer_size = q.nb_slots_ := hsize
    unfold BatchedSPSCQueue.write_ptr
    rw [hws]
    have h1 : wsub q.fill.nb_slots_ q.nb_slots_ = 0 := by
      show wsub q.nb_slots_ q.nb_slots_ = 0
      rw [wsub_of_le (Nat.le_refl _) hlt]; omega
    have h2 : wadd q.fill.enqueue_batch_size_ 1 = q.enqueue_batch_size_ + 1 := wadd_of_lt he
    rw [h1, h2, if_pos (by omega)]
  · have hrs : q.fill.reader_size = q.nb_slots_ := hsize
    unfold BatchedSPSCQueue.read_ptr
    rw [hrs, if_neg (show ¬ q.nb_slots_ < q.fill.dequeue_batch_size_ from by
      show ¬ q.nb_slots_ < q.dequeue_batch_size_; omega)]
    show some (wadd q.buffer_ (wmul 0 q.element_size_)) = some q.buffer_
    rw [Nat.zero_mul, Nat.add_zero] at hb
    simp only [wmul, wadd, Nat.zero_mul, Nat.zero_mod, Nat.add_zero, Nat.mod_eq_of_lt hb]

theorem fill_full_witness :
    ValidConfig (BatchedSPSCQueue.mk 6 3 2 1 16 3 2) ∧
    1 ≤ (BatchedSPSCQueue.mk 6 3 2 1 16 3 2).nb_slots_ ∧
    ((BatchedSPSCQueue.mk 6 3 2 1 16 3 2).fill.read_idx_ = 0 ∧
    (((BatchedSPSCQueue.mk 6 3 2 1 16 3 2).fill.write_idx_ : Int) -
        ((BatchedSPSCQueue.mk 6 3 2 1 16 3 2).fill.read_idx_ : Int) =
      ((BatchedSPSCQueue.mk 6 3 2 1 16 3 2).nb_slots_ : Int)) ∧
    (BatchedSPSCQueue.mk 6 3 2 1 16 3 2).fill.size =
      (BatchedSPSCQueue.mk 6 3 2 1 16 3 2).nb_slots_ ∧
    (BatchedSPSCQueue.mk 6 3 2 1 16 3 2).fill.write_ptr = none ∧
    (BatchedSPSCQueue.mk 6 3 2 1 16 3 2).fill.read_ptr =
      some (BatchedSPSCQueue.mk 6 3 2 1 16 3 2).buffer_) :=
  ⟨by decide, by decide,
    fill_full (BatchedSPSCQueue.mk 6 3 2 1 16 3 2) (by decide) (by decide)⟩

/-- C27: immediately after construction, and after `reset()` from any state of a
validly configured queue, `write_idx == read_idx == 0`, `size() == 0`,
`read_ptr` returns `nullptr`, and `write_ptr` returns the storage address
(offset 0) whenever `nb_slots ≥ enq_batch + 1`. -/
theorem fresh_and_reset_empty (q : BatchedSPSCQueue) (hv : ValidConfig q) :
    (q.reset.write_idx_ = 0 ∧ q.reset.read_idx_ = 0 ∧ q.reset.size = 0 ∧
      q.reset.read_ptr = none ∧
      (q.enqueue_batch_size_ + 1 ≤ q.nb_slots_ → q.reset.write_ptr = some q.buffer_)) ∧
    ((BatchedSPSCQueue.ctor q.nb_slots_ q.enqueue_batch_size_ q.dequeue_batch_size_
        q.element_size_ q.buffer_).write_idx_ = 0 ∧
      (BatchedSPSCQueue.ctor q.nb_slots_ q.enqueue_batch_size_ q.dequeue_batch_size_
        q.element_size_ q.buffer_).read_idx_ = 0 ∧
      (BatchedSPSCQueue.ctor q.nb_slots_ q.enqueue_batch_size_ q.dequeue_batch_size_
        q.element_size_ q.buffer_).size = 0 ∧
      (BatchedSPSCQueue.ctor q.nb_slots_ q.enqueue_batch_size_ q.dequeue_batch_size_
        q.element_size_ q.buffer_).read_ptr = none ∧
      (q.enqueue_batch_size_ + 1 ≤ q.nb_slots_ →
        (BatchedSPSCQueue.ctor q.nb_slots_ q.enqueue_batch_size_ q.dequeue_batch_size_
          q.element_size_ q.buffer_).write_ptr = some q.buffer_)) := by
  have key : q.reset.write_idx_ = 0 ∧ q.reset.read_idx_ = 0 ∧ q.reset.size = 0 ∧
      q.reset.read_ptr = none ∧
      (q.enqueue_batch_size_ + 1 ≤ q.nb_slots_ → q.reset.write_ptr = some q.buffer_) := by
    have hvr : ValidConfig q.reset := hv
    have hir : IndexInv q.reset := inv_reset
    have hs : slots_used q.reset = 0 := by simp [slots_used, BatchedSPSCQueue.reset]
    have hd := hv.2.1
    refine ⟨rfl, rfl, (size_eq hvr hir).trans hs, ?_, fun hcap => ?_⟩
    · rw [read_ptr_eq hvr hir, hs, if_pos (show 0 < q.reset.dequeue_batch_size_ from hd)]
    · rw [write_ptr_eq hvr hir, hs, if_neg (show ¬ q.reset.nb_slots_ <
        0 + q.reset.enqueue_batch_size_ + 1 from by
          show ¬ q.nb_slots_ < 0 + q.enqueue_batch_size_ + 1; omega)]
      show some (q.buffer_ + 0 * q.element_size_) = some q.buffer_
      rw [Nat.zero_mul, Nat.add_zero]
  exact ⟨key, key⟩

theorem fresh_and_reset_empty_witness :
    ValidConfig (BatchedSPSCQueue.mk 6 3 2 1 16 3 2) ∧
    (((BatchedSPSCQueue.mk 6 3 2 1 16 3 2).reset.write_idx_ = 0 ∧
      (BatchedSPSCQueue.mk 6 3 2 1 16 3 2).reset.read_idx_ = 0 ∧
      (BatchedSPSCQueue.mk 6 3 2 1 16 3 2).reset.size = 0 ∧
      (BatchedSPSCQueue.mk 6 3 2 1 16 3 2).reset.read_ptr = none ∧
      (3 + 1 ≤ 6 → (BatchedSPSCQueue.mk 6 3 2 1 16 3 2).reset.write_ptr = some 16)) ∧
    ((BatchedSPSCQueue.ctor 6 3 2 1 16).write_idx_ = 0 ∧
      (BatchedSPSCQueue.ctor 6 3 2 1 16).read_idx_ = 0 ∧
      (BatchedSPSCQueue.ctor 6 3 2 1 16).size = 0 ∧
      (BatchedSPSCQueue.ctor 6 3 2 1 16).read_ptr = none ∧
      (3 + 1 ≤ 6 → (BatchedSPSCQueue.ctor 6 3 2 1 16).write_ptr = some 16))) :=
  ⟨by decide, fresh_and_reset_empty (BatchedSPSCQueue.mk 6 3 2 1 16 3 2) (by decide)⟩

/-- After `fill()` and any number of consumer commits `write_idx` is still
`nb_slots` and `read_idx` is an aligned slot index. -/
theorem fill_reads_inv {q : BatchedSPSCQueue} (hv : ValidConfig q)
    (hn : 1 ≤ q.nb_slots_) (k : Nat) :
    ValidConfig (commit_reads q.fill k) ∧
    (commit_reads q.fill k).write_idx_ = (commit_reads q.fill k).nb_slots_ ∧
    (commit_reads q.fill k).read_idx_ < (commit_reads q.fill k).nb_slots_ ∧
    (commit_reads q.fill k).dequeue_batch_size_ ∣ (commit_reads q.fill k).read_idx_ ∧
    (commit_reads q.fill k).nb_slots_ = q.nb_slots_ := by
  induction k with
  | zero => exact ⟨hv, rfl, hn, Nat.dvd_zero _, rfl⟩
  | succ k ih =>
    obtain ⟨hvk, hwk, hrk, hdk, hnk⟩ := ih
    obtain ⟨hle, hidx⟩ := commit_read_idx hvk hrk hdk
    refine ⟨hvk, hwk, ?_, ?_, hnk⟩
    · show (commit_reads q.fill k).commit_read.read_idx_ < (commit_reads q.fill k).nb_slots_
      rw [hidx]; split <;> omega
    · show (commit_reads q.fill k).dequeue_batch_size_ ∣
        (commit_reads q.fill k).commit_read.read_idx_
      rw [hidx]
      split
      · exact Nat.dvd_zero _
      · exact Nat.dvd_add hdk (Nat.dvd_refl _)

/-- C30: for every valid configuration (a queue with at least one slot), after
`fill()` and with no producer call, for every `k ≥ 0` the `read_ptr` that
follows `k` `read_ptr`/`commit_read` pairs still returns a pointer: `write_idx`
stays at `nb_slots` while `read_idx` stays in `[0, nb_slots)`. -/
theorem fill_never_drains (q : BatchedSPSCQueue) (hv : ValidConfig q)
    (hn : 1 ≤ q.nb_slots_) (k : Nat) :
    (∃ p, (commit_reads q.fill k).read_ptr = some p) ∧
    (commit_reads q.fill k).write_idx_ = q.nb_slots_ ∧
    (commit_reads q.fill k).read_idx_ < q.nb_slots_ := by
  obtain ⟨hvk, hwk, hrk, hdk, hnk⟩ := fill_reads_inv hv hn k
  obtain ⟨hle, -⟩ := commit_read_idx hvk hrk hdk
  have hlt := hvk.slots_lt
  have hd := hvk.2.1
  refine ⟨?_, hwk.trans hnk, by omega⟩
  have hrs : (commit_reads q.fill k).reader_size =
      (commit_reads q.fill k).nb_slots_ - (commit_reads q.fill k).read_idx_ := by
    unfold BatchedSPSCQueue.reader_size
    simp only [hwk]
    rw [if_neg (by omega)]
    exact wsub_of_le (by omega) hlt
  unfold BatchedSPSCQueue.read_ptr
  rw [hrs, if_neg (by omega)]
  exact ⟨_, rfl⟩

theorem fill_never_drains_witness :
    ValidConfig (BatchedSPSCQueue.ctor 6 3 2 1 16) ∧
    1 ≤ (BatchedSPSCQueue.ctor 6 3 2 1 16).nb_slots_ ∧
    (commit_reads (BatchedSPSCQueue.ctor 6 3 2 1 16).fill 7).read_ptr = some 18 ∧
    ((∃ p, (commit_reads (BatchedSPSCQueue.ctor 6 3 2 1 16).fill 7).read_ptr = some p) ∧
    (commit_reads (BatchedSPSCQueue.ctor 6 3 2 1 16).fill 7).write_idx_ =
      (BatchedSPSCQueue.ctor 6 3 2 1 16).nb_slots_ ∧
    (commit_reads (BatchedSPSCQueue.ctor 6 3 2 1 16).fill 7).read_idx_ <
      (BatchedSPSCQueue.ctor 6 3 2 1 16).nb_slots_) :=
  ⟨by decide, by decide, by decide,
    fill_never_drains (BatchedSPSCQueue.ctor 6 3 2 1 16) (by decide) (by decide) 7⟩

/-! ## Scenario S3 -/

/-- C26, as stated, fails: with `nb_slots = 102`, `enq_batch = 3`,
`deq_batch = 2`, after 2 enqueues, 3 dequeues and 3 further enqueues (every
acquire succeeding) 15 elements have been produced and 6 consumed, `size()` is 9
and not 3, and after one more dequeue `read_ptr` still returns a pointer. -/
theorem scenario_s3_counterexample :
    ValidConfig (BatchedSPSCQueue.ctor 102 3 2 1 16) ∧
    (run_asserting (BatchedSPSCQueue.ctor 102 3 2 1 16)
      [QueueOp.enqueue, QueueOp.enqueue, QueueOp.dequeue, QueueOp.dequeue, QueueOp.dequeue,
        QueueOp.enqueue, QueueOp.enqueue, QueueOp.enqueue]).map BatchedSPSCQueue.size
      = some 9 ∧
    (run_asserting (BatchedSPSCQueue.ctor 102 3 2 1 16)
      [QueueOp.enqueue, QueueOp.enqueue, QueueOp.dequeue, QueueOp.dequeue, QueueOp.dequeue,
        QueueOp.enqueue, QueueOp.enqueue, QueueOp.enqueue,
        QueueOp.dequeue]).bind BatchedSPSCQueue.read_ptr ≠ none := by
  decide

/-- C26 (amended): with `nb_slots = 102`, `enq_batch = 3`, `deq_batch = 2` (and
one-byte elements) on a freshly constructed queue, after 2 enqueue commits,
3 dequeue commits and 3 further enqueue commits, 15 elements have been produced
and 6 consumed, so 9 elements are in the queue (`size() == 9`): four more
`read_ptr`/`commit_read` pairs succeed and the `read_ptr` after them returns
`nullptr`. -/
theorem scenario_s3 :
    (count_ops (BatchedSPSCQueue.ctor 102 3 2 1 16)
      [QueueOp.enqueue, QueueOp.enqueue, QueueOp.dequeue, QueueOp.dequeue, QueueOp.dequeue,
        QueueOp.enqueue, QueueOp.enqueue, QueueOp.enqueue]).writes * 3 = 15 ∧
    (count_ops (BatchedSPSCQueue.ctor 102 3 2 1 16)
      [QueueOp.enqueue, QueueOp.enqueue, QueueOp.dequeue, QueueOp.dequeue, QueueOp.dequeue,
        QueueOp.enqueue, QueueOp.enqueue, QueueOp.enqueue]).reads * 2 = 6 ∧
    (run_asserting (BatchedSPSCQueue.ctor 102 3 2 1 16)
      [QueueOp.enqueue, QueueOp.enqueue, QueueOp.dequeue, QueueOp.dequeue, QueueOp.dequeue,
        QueueOp.enqueue, QueueOp.enqueue, QueueOp.enqueue]).map BatchedSPSCQueue.size
      = some 9 ∧
    ((run_asserting (BatchedSPSCQueue.ctor 102 3 2 1 16)
      [QueueOp.enqueue, QueueOp.enqueue, QueueOp.dequeue, QueueOp.dequeue, QueueOp.dequeue,
        QueueOp.enqueue, QueueOp.enqueue, QueueOp.enqueue,
        QueueOp.dequeue, QueueOp.dequeue, QueueOp.dequeue, QueueOp.dequeue]).map
          BatchedSPSCQueue.read_ptr) = some none := by
  decide

/-! ## Indices and commit counts -/

/-- The counted run keeps each index equal to its batch size times its commit
count, reduced modulo `nb_slots`. -/
theorem count_op_idx {c : CommitCount} (hv : ValidConfig c.queue) (hi : IndexInv c.queue)
    (hw : c.queue.write_idx_ =
      (c.queue.enqueue_batch_size_ * c.writes) % c.queue.nb_slots_)
    (hr : c.queue.read_idx_ =
      (c.queue.dequeue_batch_size_ * c.reads) % c.queue.nb_slots_) (op : QueueOp) :
    (count_op c op).queue.write_idx_ =
      ((count_op c op).queue.enqueue_batch_size_ * (count_op c op).writes) %
        (count_op c op).queue.nb_slots_ ∧
    (count_op c op).queue.read_idx_ =
      ((count_op c op).queue.dequeue_batch_size_ * (count_op c op).reads) %
        (count_op c op).queue.nb_slots_ := by
  cases op <;> simp only [count_op]
  · split
    · rename_i p hp
      obtain ⟨-, -, hlt, -, ha, -⟩ := write_ptr_some hv hi hp
      obtain ⟨hle, hidx⟩ := commit_write_idx hv hlt ha
      refine ⟨?_, hr⟩
      show c.queue.commit_write.write_idx_ =
        (c.queue.enqueue_batch_size_ * (c.writes + 1)) % c.queue.nb_slots_
      rw [hidx, Nat.mul_add, Nat.mul_one, ← Nat.mod_add_mod, ← hw]
      split
      · rename_i h; rw [h, Nat.mod_self]
      · rw [Nat.mod_eq_of_lt (by omega)]
    · exact ⟨hw, hr⟩
  · split
    · rename_i p hp
      obtain ⟨-, -, -, hlt, -, hb⟩ := read_ptr_some hv hi hp
      obtain ⟨hle, hidx⟩ := commit_read_idx hv hlt hb
      refine ⟨hw, ?_⟩
      show c.queue.commit_read.read_idx_ =
        (c.queue.dequeue_batch_size_ * (c.reads + 1)) % c.queue.nb_slots_
      rw [hidx, Nat.mul_add, Nat.mul_one, ← Nat.mod_add_mod, ← hr]
      split
      · rename_i h; rw [h, Nat.mod_self]
      · rw [Nat.mod_eq_of_lt (by omega)]
    · exact ⟨hw, hr⟩
  · exact ⟨by simp [BatchedSPSCQueue.reset], by simp [BatchedSPSCQueue.reset]⟩

theorem count_fold_idx (ops : List QueueOp) {c : CommitCount} (hv : ValidConfig c.queue)
    (hi : IndexInv c.queue)
    (hc : slots_used c.queue + c.queue.dequeue_batch_size_ * c.reads =
      c.queue.enqueue_batch_size_ * c.writes)
    (hw : c.queue.write_idx_ =
      (c.queue.enqueue_batch_size_ * c.writes) % c.queue.nb_slots_)
    (hr : c.queue.read_idx_ =
      (c.queue.dequeue_batch_size_ * c.reads) % c.queue.nb_slots_) :
    (ops.foldl count_op c).queue.write_idx_ =
      ((ops.foldl count_op c).queue.enqueue_batch_size_ * (ops.foldl count_op c).writes) %
        (ops.foldl count_op c).queue.nb_slots_ ∧
    (ops.foldl count_op c).queue.read_idx_ =
      ((ops.foldl count_op c).queue.dequeue_batch_size_ * (ops.foldl count_op c).reads) %
        (ops.foldl count_op c).queue.nb_slots_ := by
  induction ops generalizing c with
  | nil => exact ⟨hw, hr⟩
  | cons op ops ih =>
    obtain ⟨h1, h2, h4⟩ := count_op_inv hv hi hc op
    obtain ⟨h5, h6⟩ := count_op_idx hv hi hw hr op
    exact ih h1 h2 h4 h5 h6

/-- Facts about the counted run from a freshly constructed queue, in terms of
the reached state. -/
theorem counted_state (n e d s b : Nat) (ops : List QueueOp)
    (hv : ValidConfig (BatchedSPSCQueue.ctor n e d s b)) :
    ValidConfig (run_ops (BatchedSPSCQueue.ctor n e d s b) ops) ∧
    IndexInv (run_ops (BatchedSPSCQueue.ctor n e d s b) ops) ∧
    slots_used (run_ops (BatchedSPSCQueue.ctor n e d s b) ops) +
        d * (count_ops (BatchedSPSCQueue.ctor n e d s b) ops).reads =
      e * (count_ops (BatchedSPSCQueue.ctor n e d s b) ops).writes ∧
    (run_ops (BatchedSPSCQueue.ctor n e d s b) ops).write_idx_ =
      (e * (count_ops (BatchedSPSCQueue.ctor n e d s b) ops).writes) % n ∧
    (run_ops (BatchedSPSCQueue.ctor n e d s b) ops).read_idx_ =
      (d * (count_ops (BatchedSPSCQueue.ctor n e d s b) ops).reads) % n := by
  have h0 : slots_used (BatchedSPSCQueue.ctor n e d s b) + d * 0 = e * 0 := by
    simp [slots_used, BatchedSPSCQueue.ctor]
  have hw0 : (0 : Nat) = (e * 0) % n := by simp
  have hr0 : (0 : Nat) = (d * 0) % n := by simp
  obtain ⟨g1, g2, g3, g4⟩ := count_fold_inv ops
    (c := { queue := BatchedSPSCQueue.ctor n e d s b, writes := 0, reads := 0 })
    hv (inv_ctor n e d s b) h0
  obtain ⟨g5, g6⟩ := count_fold_idx ops
    (c := { queue := BatchedSPSCQueue.ctor n e d s b, writes := 0, reads := 0 })
    hv (inv_ctor n e d s b) h0 hw0 hr0
  have g3' : (List.foldl count_op
      { queue := BatchedSPSCQueue.ctor n e d s b, writes := 0, reads := 0 } ops).queue =
      run_ops (BatchedSPSCQueue.ctor n e d s b) ops := g3
  obtain ⟨-, -, c1, c2, c3, -, -⟩ := reached_state n e d s b ops hv
  rw [g3'] at g1 g2 g4 g5 g6
  rw [c2, c3] at g4
  rw [c1, c2] at g5
  rw [c1, c3] at g6
  exact ⟨g1, g2, g4, g5, g6⟩

/-- C29: for every valid configuration (a queue with at least one slot), after
any sequence of guarded calls on a freshly constructed queue with `W`
`commit_write` and `R` `commit_read` calls (counted since construction or the
last `reset`), `write_idx == (enq_batch * W) mod nb_slots`,
`read_idx == (deq_batch * R) mod nb_slots` and
`0 ≤ enq_batch*W - deq_batch*R < nb_slots`. -/
theorem indices_from_counts (n e d s b : Nat) (ops : List QueueOp)
    (hv : ValidConfig (BatchedSPSCQueue.ctor n e d s b)) (hn : 1 ≤ n) :
    (run_ops (BatchedSPSCQueue.ctor n e d s b) ops).write_idx_ =
      (e * (count_ops (BatchedSPSCQueue.ctor n e d s b) ops).writes) % n ∧
    (run_ops (BatchedSPSCQueue.ctor n e d s b) ops).read_idx_ =
      (d * (count_ops (BatchedSPSCQueue.ctor n e d s b) ops).reads) % n ∧
    0 ≤ (e : Int) * (count_ops (BatchedSPSCQueue.ctor n e d s b) ops).writes -
        (d : Int) * (count_ops (BatchedSPSCQueue.ctor n e d s b) ops).reads ∧
    (e : Int) * (count_ops (BatchedSPSCQueue.ctor n e d s b) ops).writes -
        (d : Int) * (count_ops (BatchedSPSCQueue.ctor n e d s b) ops).reads < (n : Int) := by
  obtain ⟨-, hiq, hc, hw, hr⟩ := counted_state n e d s b ops hv
  obtain ⟨-, -, c1, -, -, -, -⟩ := reached_state n e d s b ops hv
  have hlt := slots_used_lt hiq (by rw [c1]; exact hn)
  rw [c1] at hlt
  have := congrArg (fun x : Nat => (x : Int)) hc
  simp only [Nat.cast_add, Nat.cast_mul] at this
  exact ⟨hw, hr, by omega, by omega⟩

theorem indices_from_counts_witness :
    ValidConfig (BatchedSPSCQueue.ctor 6 3 2 1 16) ∧ 1 ≤ 6 ∧
    (count_ops (BatchedSPSCQueue.ctor 6 3 2 1 16)
      [QueueOp.enqueue, QueueOp.dequeue, QueueOp.enqueue, QueueOp.dequeue]).writes = 2 ∧
    (count_ops (BatchedSPSCQueue.ctor 6 3 2 1 16)
      [QueueOp.enqueue, QueueOp.dequeue, QueueOp.enqueue, QueueOp.dequeue]).reads = 2 ∧
    ((run_ops (BatchedSPSCQueue.ctor 6 3 2 1 16)
        [QueueOp.enqueue, QueueOp.dequeue, QueueOp.enqueue, QueueOp.dequeue]).write_idx_ =
      (3 * (count_ops (BatchedSPSCQueue.ctor 6 3 2 1 16)
        [QueueOp.enqueue, QueueOp.dequeue, QueueOp.enqueue, QueueOp.dequeue]).writes) % 6 ∧
    (run_ops (BatchedSPSCQueue.ctor 6 3 2 1 16)
        [QueueOp.enqueue, QueueOp.dequeue, QueueOp.enqueue, QueueOp.dequeue]).read_idx_ =
      (2 * (count_ops (BatchedSPSCQueue.ctor 6 3 2 1 16)
        [QueueOp.enqueue, QueueOp.dequeue, QueueOp.enqueue, QueueOp.dequeue]).reads) % 6 ∧
    0 ≤ ((3 : Nat) : Int) * (count_ops (BatchedSPSCQueue.ctor 6 3 2 1 16)
          [QueueOp.enqueue, QueueOp.dequeue, QueueOp.enqueue, QueueOp.dequeue]).writes -
        ((2 : Nat) : Int) * (count_ops (BatchedSPSCQueue.ctor 6 3 2 1 16)
          [QueueOp.enqueue, QueueOp.dequeue, QueueOp.enqueue, QueueOp.dequeue]).reads ∧
    ((3 : Nat) : Int) * (count_ops (BatchedSPSCQueue.ctor 6 3 2 1 16)
          [QueueOp.enqueue, QueueOp.dequeue, QueueOp.enqueue, QueueOp.dequeue]).writes -
        ((2 : Nat) : Int) * (count_ops (BatchedSPSCQueue.ctor 6 3 2 1 16)
          [QueueOp.enqueue, QueueOp.dequeue, QueueOp.enqueue, QueueOp.dequeue]).reads <
      ((6 : Nat) : Int)) :=
  ⟨by decide, by decide, by decide, by decide,
    indices_from_counts 6 3 2 1 16
      [QueueOp.enqueue, QueueOp.dequeue, QueueOp.enqueue, QueueOp.dequeue]
      (by decide) (by decide)⟩

/-! ## Full is never confused with empty -/

/-- C28: for every valid configuration (a queue with at least one slot), in
every state reachable by guarded commits and reset, the occupancy is a multiple
of `gcd(enq_batch, deq_batch)` and at most `nb_slots - gcd(enq_batch, deq_batch)`;
a guarded `commit_write` never makes `write_idx` equal to `read_idx`; and
`write_idx == read_idx` holds exactly when the number of produced elements
equals the number of consumed elements (counted since construction or the last
`reset`). -/
theorem full_not_empty (n e d s b : Nat) (ops : List QueueOp)
    (hv : ValidConfig (BatchedSPSCQueue.ctor n e d s b)) (hn : 1 ≤ n) :
    (Nat.gcd e d : Int) ∣ occupancy (run_ops (BatchedSPSCQueue.ctor n e d s b) ops) ∧
    occupancy (run_ops (BatchedSPSCQueue.ctor n e d s b) ops) ≤
      (n : Int) - (Nat.gcd e d : Int) ∧
    (∀ p, (run_ops (BatchedSPSCQueue.ctor n e d s b) ops).write_ptr = some p →
      (run_ops (BatchedSPSCQueue.ctor n e d s b) ops).commit_write.write_idx_ ≠
        (run_ops (BatchedSPSCQueue.ctor n e d s b) ops).commit_write.read_idx_) ∧
    ((run_ops (BatchedSPSCQueue.ctor n e d s b) ops).write_idx_ =
        (run_ops (BatchedSPSCQueue.ctor n e d s b) ops).read_idx_ ↔
      e * (count_ops (BatchedSPSCQueue.ctor n e d s b) ops).writes =
        d * (count_ops (BatchedSPSCQueue.ctor n e d s b) ops).reads) := by
  obtain ⟨hvq, hiq, hc, -, -⟩ := counted_state n e d s b ops hv
  obtain ⟨-, -, c1, c2, c3, -, -⟩ := reached_state n e d s b ops hv
  generalize (count_ops (BatchedSPSCQueue.ctor n e d s b) ops).writes = W at *
  generalize (count_ops (BatchedSPSCQueue.ctor n e d s b) ops).reads = R at *
  generalize run_ops (BatchedSPSCQueue.ctor n e d s b) ops = q at *
  subst c1 c2 c3
  have hlt := slots_used_lt hiq hn
  have hg : Nat.gcd q.enqueue_batch_size_ q.dequeue_batch_size_ ∣ slots_used q :=
    dvd_slots_used hvq hiq (Nat.gcd_dvd_left _ _) (Nat.gcd_dvd_right _ _)
  have hbound := aligned_add_le hg
    (Nat.dvd_trans (Nat.gcd_dvd_left _ _) hvq.enq_dvd) hlt
  have hzero : q.write_idx_ = q.read_idx_ ↔ slots_used q = 0 := by
    rcases hiq with ⟨hn0, -, -⟩ | ⟨hw, hr, -, -⟩
    · omega
    · unfold slots_used; split <;> omega
  refine ⟨?_, ?_, fun p hp heq => ?_, ?_⟩
  · rw [occupancy_eq hiq]; exact Int.natCast_dvd_natCast.2 hg
  · rw [occupancy_eq hiq]; omega
  · have h1 := slots_used_commit_write hvq hiq hp
    have he := hvq.1
    have h2 : slots_used q.commit_write = 0 := by
      unfold slots_used; rw [heq]; simp
    omega
  · rw [hzero]; omega

theorem full_not_empty_witness :
    ValidConfig (BatchedSPSCQueue.ctor 6 3 2 1 16) ∧ 1 ≤ 6 ∧
    (run_ops (BatchedSPSCQueue.ctor 6 3 2 1 16)
      [QueueOp.enqueue, QueueOp.dequeue]).write_ptr = some 19 ∧
    ((Nat.gcd 3 2 : Int) ∣ occupancy (run_ops (BatchedSPSCQueue.ctor 6 3 2 1 16)
        [QueueOp.enqueue, QueueOp.dequeue]) ∧
    occupancy (run_ops (BatchedSPSCQueue.ctor 6 3 2 1 16)
        [QueueOp.enqueue, QueueOp.dequeue]) ≤ ((6 : Nat) : Int) - (Nat.gcd 3 2 : Int) ∧
    (∀ p, (run_ops (BatchedSPSCQueue.ctor 6 3 2 1 16)
        [QueueOp.enqueue, QueueOp.dequeue]).write_ptr = some p →
      (run_ops (BatchedSPSCQueue.ctor 6 3 2 1 16)
        [QueueOp.enqueue, QueueOp.dequeue]).commit_write.write_idx_ ≠
        (run_ops (BatchedSPSCQueue.ctor 6 3 2 1 16)
          [QueueOp.enqueue, QueueOp.dequeue]).commit_write.read_idx_) ∧
    ((run_ops (BatchedSPSCQueue.ctor 6 3 2 1 16)
        [QueueOp.enqueue, QueueOp.dequeue]).write_idx_ =
        (run_ops (BatchedSPSCQueue.ctor 6 3 2 1 16)
          [QueueOp.enqueue, QueueOp.dequeue]).read_idx_ ↔
      3 * (count_ops (BatchedSPSCQueue.ctor 6 3 2 1 16)
        [QueueOp.enqueue, QueueOp.dequeue]).writes =
        2 * (count_ops (BatchedSPSCQueue.ctor 6 3 2 1 16)
          [QueueOp.enqueue, QueueOp.dequeue]).reads)) :=
  ⟨by decide, by decide, by decide,
    full_not_empty 6 3 2 1 16 [QueueOp.enqueue, QueueOp.dequeue] (by decide) (by decide)⟩

/-! ## Elements of a validated descriptor -/

theorem inBounds_cons {i d : Nat} {idx shape : List Nat}
    (h : InBounds (i :: idx) (d :: shape)) : i < d ∧ InBounds idx shape := by
  obtain ⟨hlen, hall⟩ := h
  refine ⟨by simpa using hall 0 (by simp), by simpa using hlen, fun k hk => ?_⟩
  simpa using hall (k + 1) (by simpa using hk)

theorem inBounds_nil_right {idx : List Nat} (h : InBounds idx []) : idx = [] :=
  List.length_eq_zero.1 h.1

theorem validStrides_single {ts d s : Nat} (h : ValidStrides ts [d] [s]) : ts ≤ s := by
  simpa using (h.2 (by simp)).1

theorem validStrides_tail {ts d d1 s s1 : Nat} {shape strides : List Nat}
    (h : ValidStrides ts (d :: d1 :: shape) (s :: s1 :: strides)) :
    d1 * s1 ≤ s ∧ ValidStrides ts (d1 :: shape) (s1 :: strides) := by
  obtain ⟨hlen, hrest⟩ := h
  obtain ⟨hlast, hchain⟩ := hrest (by simp)
  refine ⟨by simpa using hchain 0 (by simp), by simpa using hlen, fun _ => ⟨?_, fun k hk => ?_⟩⟩
  · simpa using hlast
  · simpa using hchain (k + 1) (by simp at hk ⊢; omega)

/-- The offset of an in-bounds element plus one element stays inside the
outermost dimension. -/
theorem offset_bound (ts : Nat) :
    ∀ (shape strides idx : List Nat), ValidStrides ts shape strides → shape ≠ [] →
      InBounds idx shape →
      byte_offset idx strides + ts ≤ shape.getD 0 0 * strides.getD 0 0 := by
  intro shape
  induction shape with
  | nil => intro _ _ _ hne; exact absurd rfl hne
  | cons d rest ih =>
    intro strides idx hv _ hidx
    cases strides with
    | nil => exact absurd hv.1 (by simp)
    | cons s ss =>
      cases idx with
      | nil => exact absurd hidx.1 (by simp)
      | cons i is =>
        obtain ⟨hi, htail⟩ := inBounds_cons hidx
        have hstep : i * s + s ≤ d * s := by
          have := Nat.mul_le_mul_right s (Nat.succ_le_of_lt hi)
          rwa [Nat.succ_mul] at this
        cases rest with
        | nil =>
          have his := inBounds_nil_right htail
          subst his
          have hts : ts ≤ s := by
            cases ss with
            | nil => exact validStrides_single hv
            | cons _ _ => exact absurd hv.1 (by simp)
          simp only [byte_offset, List.getD_cons_zero]
          omega
        | cons d1 ds =>
          cases ss with
          | nil => exact absurd hv.1 (by simp)
          | cons s1 ss1 =>
            obtain ⟨hchain, hvt⟩ := validStrides_tail hv
            have := ih (s1 :: ss1) is hvt (by simp) htail
            simp only [List.getD_cons_zero] at this
            simp only [byte_offset, List.getD_cons_zero] at this ⊢
            omega

/-- The offset of an in-bounds element of the inner dimensions plus one element
fits in one step of the enclosing dimension. -/
theorem inner_offset_bound {ts d s : Nat} {rest ss is : List Nat}
    (hv : ValidStrides ts (d :: rest) (s :: ss)) (htail : InBounds is rest) :
    byte_offset is ss + ts ≤ s := by
  cases rest with
  | nil =>
    have his := inBounds_nil_right htail
    subst his
    cases ss with
    | nil => simpa [byte_offset] using validStrides_single hv
    | cons _ _ => exact absurd hv.1 (by simp)
  | cons d1 ds =>
    cases ss with
    | nil => exact absurd hv.1 (by simp)
    | cons s1 ss1 =>
      obtain ⟨hchain, hvt⟩ := validStrides_tail hv
      have := offset_bound ts (d1 :: ds) (s1 :: ss1) is hvt (by simp) htail
      simp only [List.getD_cons_zero] at this
      omega

/-- C31, as stated, fails: shape `[2^32]` with strides `[2^32]` and
`type_size = 4` satisfies the validation conditions and is constructed, the
element at index `[0]` has offset 0, and `size_in_bytes()` returns 0, so
`offset + type_size = 4` exceeds it. -/
theorem element_in_footprint_counterexample :
    ValidStrides 4 [4294967296] [4294967296] ∧
    InBounds [0] [4294967296] ∧
    TensorDescriptor.ctor "float" 4 [4294967296] [4294967296] =
      some (TensorDescriptor.mk "float" 4 [4294967296] [4294967296]) ∧
    (TensorDescriptor.mk "float" 4 [4294967296] [4294967296]).size_in_bytes = 0 ∧
    ¬ (byte_offset [0] [4294967296] + 4 ≤
      (TensorDescriptor.mk "float" 4 [4294967296] [4294967296]).size_in_bytes) := by
  decide

/-- C31 (amended): for every descriptor satisfying the validation conditions
over the natural numbers with non-empty shape, and every multi-index `idx` with
`idx[i] < shape[i]` for all `i`, the byte offset `sum_i idx[i] * strides[i]`
satisfies `offset + type_size ≤ shape[0] * strides[0]`; when
`shape[0] * strides[0]` is below `2^64` this product is `size_in_bytes()`, so
`offset + type_size ≤ size_in_bytes()`. -/
theorem element_in_footprint (type_name : String) (ts : Nat)
    (shape strides idx : List Nat) (hv : ValidStrides ts shape strides)
    (hne : shape ≠ []) (hidx : InBounds idx shape) :
    byte_offset idx strides + ts ≤ shape.getD 0 0 * strides.getD 0 0 ∧
    (shape.getD 0 0 * strides.getD 0 0 < 2 ^ 64 →
      (TensorDescriptor.mk type_name ts shape strides).size_in_bytes =
        shape.getD 0 0 * strides.getD 0 0 ∧
      byte_offset idx strides + ts ≤
        (TensorDescriptor.mk type_name ts shape strides).size_in_bytes) := by
  have hb := offset_bound ts shape strides idx hv hne hidx
  refine ⟨hb, fun hfit => ?_⟩
  have hsz : (TensorDescriptor.mk type_name ts shape strides).size_in_bytes =
      shape.getD 0 0 * strides.getD 0 0 := by
    cases shape with
    | nil => exact absurd rfl hne
    | cons d ds =>
      cases strides with
      | nil => exact absurd hv.1 (by simp)
      | cons s ss =>
        simp only [List.getD_cons_zero] at hfit ⊢
        show wmul d s = d * s
        exact wmul_of_lt hfit
  exact ⟨hsz, hsz ▸ hb⟩

theorem element_in_footprint_witness :
    ValidStrides 4 [4, 4] [16, 4] ∧ ([4, 4] : List Nat) ≠ [] ∧ InBounds [3, 3] [4, 4] ∧
    byte_offset [3, 3] [16, 4] = 60 ∧
    (byte_offset [3, 3] [16, 4] + 4 ≤
        ([4, 4] : List Nat).getD 0 0 * ([16, 4] : List Nat).getD 0 0 ∧
    (([4, 4] : List Nat).getD 0 0 * ([16, 4] : List Nat).getD 0 0 < 2 ^ 64 →
      (TensorDescriptor.mk "float" 4 [4, 4] [16, 4]).size_in_bytes =
        ([4, 4] : List Nat).getD 0 0 * ([16, 4] : List Nat).getD 0 0 ∧
      byte_offset [3, 3] [16, 4] + 4 ≤
        (TensorDescriptor.mk "float" 4 [4, 4] [16, 4]).size_in_bytes)) :=
  ⟨by decide, by decide, by decide, by decide,
    element_in_footprint "float" 4 [4, 4] [16, 4] [3, 3] (by decide) (by decide)
      (by decide)⟩

/-- C32: for every descriptor satisfying the validation conditions over the
natural numbers and every two distinct in-bounds multi-indices, the byte ranges
`[off, off + type_size)` of the two elements are disjoint: one element ends
before the other starts, that is `|off - off'| ≥ type_size`. -/
theorem elements_do_not_alias (ts : Nat) (shape strides idx jdx : List Nat)
    (hv : ValidStrides ts shape strides) (hi : InBounds idx shape)
    (hj : InBounds jdx shape) (hne : idx ≠ jdx) :
    byte_offset idx strides + ts ≤ byte_offset jdx strides ∨
    byte_offset jdx strides + ts ≤ byte_offset idx strides := by
  induction shape generalizing strides idx jdx with
  | nil =>
    exact absurd ((inBounds_nil_right hi).trans (inBounds_nil_right hj).symm) hne
  | cons d rest ih =>
    cases strides with
    | nil => exact absurd hv.1 (by simp)
    | cons s ss =>
      cases idx with
      | nil => exact absurd hi.1 (by simp)
      | cons i is =>
        cases jdx with
        | nil => exact absurd hj.1 (by simp)
        | cons j js =>
          obtain ⟨hid, hit⟩ := inBounds_cons hi
          obtain ⟨hjd, hjt⟩ := inBounds_cons hj
          have hbi := inner_offset_bound hv hit
          have hbj := inner_offset_bound hv hjt
          simp only [byte_offset]
          rcases Nat.lt_trichotomy i j with hlt | heq | hgt
          · have := Nat.mul_le_mul_right s (Nat.succ_le_of_lt hlt)
            rw [Nat.succ_mul] at this
            left; omega
          · subst heq
            have hne2 : is ≠ js := fun h => hne (by rw [h])
            cases rest with
            | nil =>
              exact absurd ((inBounds_nil_right hit).trans (inBounds_nil_right hjt).symm) hne2
            | cons d1 ds =>
              cases ss with
              | nil => exact absurd hv.1 (by simp)
              | cons s1 ss1 =>
                obtain ⟨-, hvt⟩ := validStrides_tail hv
                rcases ih (s1 :: ss1) is js hvt hit hjt hne2 with h | h
                · left; omega
                · right; omega
          · have := Nat.mul_le_mul_right s (Nat.succ_le_of_lt hgt)
            rw [Nat.succ_mul] at this
            right; omega

theorem elements_do_not_alias_witness :
    ValidStrides 4 [4, 4] [16, 4] ∧ InBounds [1, 3] [4, 4] ∧ InBounds [2, 0] [4, 4] ∧
    ([1, 3] : List Nat) ≠ [2, 0] ∧
    byte_offset [1, 3] [16, 4] = 28 ∧ byte_offset [2, 0] [16, 4] = 32 ∧
    (byte_offset [1, 3] [16, 4] + 4 ≤ byte_offset [2, 0] [16, 4] ∨
      byte_offset [2, 0] [16, 4] + 4 ≤ byte_offset [1, 3] [16, 4]) :=
  ⟨by decide, by decide, by decide, by decide, by decide, by decide,
    elements_do_not_alias 4 [4, 4] [16, 4] [1, 3] [2, 0] (by decide) (by decide)
      (by decide) (by decide)⟩

end holoflow
